import Mathlib

/-!
# Verification of `fim_mosaicker/mosaic.py` (`mosaic_rasters`)

A shallow embedding of the raster-mosaicking engine in
`src/fim_mosaicker/mosaic.py`.  Pixel values and georeferenced
coordinates are modelled as rationals (`ℚ`), raster pixel grids as total
functions `ℤ → ℤ → ℚ` (row, column); machine-float round-off is outside
the model.  The external `rasterio`/`fiona` calls are modelled at their
interface boundary:

* `src.window(left, bottom, right, top)` is affine `from_bounds`
  arithmetic on the dataset's north-up transform;
* `Window.round_offsets()` / `round_lengths()` floor the fractional
  offsets and lengths (the library's default `op='floor'`); all theorems
  below only use them on grid-aligned inputs where they are the
  identity;
* `src.read(1, window=w, boundless=True, fill_value=src.nodata)` yields
  the stored sample inside the dataset and the fill value outside; a
  `fill_value` of `None` (dataset without a nodata sentinel) fills with
  zero, as the boundless read does;
* `rasterio.mask.mask(src, geoms, crop=False, nodata=nd)` keeps the
  pixels covered by the rasterized geometry footprint and writes `nd`
  elsewhere; the footprint itself is the abstract input.

Failures of the external I/O layer (a read raising inside the
per-window `try`, `dst.write` failing, the clip-geometry source being
unreadable) are driven by an explicit `Oracle`, so that the error paths
of the Python function become total Lean functions.
-/

namespace Mosaic

/- Batteries marks the `Rat` field operations `@[irreducible]`, which
blocks `decide`/`rfl` evaluation of the model on concrete rasters;
restore the default reducibility for this development. -/
attribute [local semireducible] Rat.mul Rat.add Rat.sub Rat.inv

/-- Output flavour selected by the `fim_type` argument. -/
inductive FimType where
  | depth
  | extent
deriving DecidableEq, Repr

/-- `fim_type` selects the output nodata sentinel: `-9999` for depth,
`255` for extent (lines 57-63 of `mosaic.py`). -/
def outNodata : FimType → ℚ
  | .depth => -9999
  | .extent => 255

/-- One opened input raster: the fields `rasterio.open` exposes and the
code reads (bounds via transform + dimensions, `res`, `crs`, `nodata`,
and the pixel samples).  The transform is north-up: origin at
`(left, top)`, positive pixel sizes `resX`, `resY` (rasterio's `res` is
the pair of absolute pixel sizes). -/
structure SrcRaster where
  left : ℚ
  top : ℚ
  resX : ℚ
  resY : ℚ
  width : ℤ
  height : ℤ
  crs : ℕ
  nodata : Option ℚ
  data : ℤ → ℤ → ℚ

/-- Right edge of the raster extent, derived from transform and width. -/
def SrcRaster.rightEdge (s : SrcRaster) : ℚ := s.left + s.width * s.resX

/-- Bottom edge of the raster extent, derived from transform and height. -/
def SrcRaster.bottomEdge (s : SrcRaster) : ℚ := s.top - s.height * s.resY

/-- Errors the run can signal.  `valueError` carries the message of a
Python `ValueError` raise site; `zeroDivisionError` is Python's
`ZeroDivisionError` from a float division by zero; `writeError` and
`clipOpenError` stand for exceptions of the modelled I/O layer
(`dst.write`, `fiona.open`). -/
inductive MosaicError where
  | valueError (msg : String)
  | zeroDivisionError
  | writeError
  | clipOpenError
deriving DecidableEq, Repr

/-- The phase of `mosaic_rasters` in which a failure occurred:
input validation (lines 51-96), the output-dimension / profile
computation (lines 99-120), the block-processing loop (lines 124-219),
or the clip stage (lines 221-237). -/
inductive Stage where
  | validation
  | dimensions
  | blockLoop
  | clipStage
deriving DecidableEq, Repr

/-- Failure injection for the modelled I/O layer: `readFail b i` makes
the sub-window read of source `i` raise while processing block `b`
(caught at lines 209-211), `writeFail b` makes `dst.write` of block `b`
raise, `clipOpenFail` makes the clip-geometry source unreadable. -/
structure Oracle where
  readFail : ℕ → ℕ → Bool
  writeFail : ℕ → Bool
  clipOpenFail : Bool

/-- The oracle of a run in which the I/O layer never fails. -/
def noFail : Oracle := ⟨fun _ _ => false, fun _ => false, false⟩

/-- Python `int()` applied to a rational: truncation toward zero. -/
def pyInt (q : ℚ) : ℤ := if 0 ≤ q then ⌊q⌋ else ⌈q⌉

/-- Python float division: raises `ZeroDivisionError` on a zero
divisor, otherwise exact division (float round-off not modelled). -/
def pyDiv (a b : ℚ) : Except MosaicError ℚ :=
  if b = 0 then .error .zeroDivisionError else .ok (a / b)

/-- Georeferenced bounding rectangle. -/
structure GeoBounds where
  left : ℚ
  bottom : ℚ
  right : ℚ
  top : ℚ
deriving DecidableEq, Repr

/-- A block window of the output raster: pixel offsets and size
(`dst.block_windows(1)` entries). -/
structure BlockWin where
  rowOff : ℤ
  colOff : ℤ
  h : ℤ
  w : ℤ
deriving DecidableEq, Repr

/-- `src.window(left, bottom, right, top)` (line 149): the fractional
window of the given bounds in the source's pixel space, by
`windows.from_bounds` arithmetic on the source's north-up transform.
Returns `(colOff, rowOff, width, height)`. -/
def srcWindowF (s : SrcRaster) (b : GeoBounds) : ℚ × ℚ × ℚ × ℚ :=
  ((b.left - s.left) / s.resX,
   (s.top - b.top) / s.resY,
   (b.right - b.left) / s.resX,
   (b.top - b.bottom) / s.resY)

/-- The boundless read (lines 159-164) at local index `(i, j)` of the
rounded source window with offsets `(rowOff, colOff)`: the stored
sample inside the dataset, the fill value outside.  The fill value is
`src.nodata`; when the source has no nodata (`fill_value=None`) the
boundless read fills with `0`. -/
def readAt (s : SrcRaster) (rowOff colOff i j : ℤ) : ℚ :=
  let r := rowOff + i
  let c := colOff + j
  if 0 ≤ r ∧ r < s.height ∧ 0 ≤ c ∧ c < s.width then s.data r c
  else match s.nodata with
    | some nd => nd
    | none => 0

/-- The validity mask (lines 170-175): a pixel is valid unless it
equals the source's nodata sentinel; with no sentinel every pixel is
valid. -/
def validAt (s : SrcRaster) (v : ℚ) : Bool :=
  match s.nodata with
  | none => true
  | some nd => decide (v ≠ nd)

/-- The per-pixel band transform (lines 177-183): in extent mode the
value becomes `1` where valid and nonzero and `0` elsewhere
(`data_temp` starts as zeros); in depth mode the value passes through. -/
def transformAt (fim : FimType) (valid : Bool) (v : ℚ) : ℚ :=
  match fim with
  | .depth => v
  | .extent => if valid ∧ v ≠ 0 then 1 else 0

/-- The per-pixel compositing update (lines 186-207): where the
candidate is valid, it replaces a nodata buffer cell and otherwise the
maximum of buffer and candidate is kept; where invalid, the buffer cell
is untouched. -/
def updatePixel (nodata : ℚ) (valid : Bool) (cand buf : ℚ) : ℚ :=
  if valid then (if buf = nodata then cand else max buf cand) else buf

/-- `np.any(valid_mask)` (line 186) over the read window of shape
`h × w`. -/
def anyValid (s : SrcRaster) (rowOff colOff h w : ℤ) : Bool :=
  (List.range h.toNat).any fun i =>
    (List.range w.toNat).any fun j =>
      validAt s (readAt s rowOff colOff (i : ℤ) (j : ℤ))

/-- One iteration of the per-source loop (lines 147-211) acting on the
block state `(buffer, has_valid_data)`.

* `fails = true` models `src.read` raising: the exception is caught at
  lines 209-211 and the source is skipped for this block;
* the `width <= 0 or height <= 0` guard (line 152) skips on a
  non-positive fractional window;
* a rounded window with zero sample count is skipped
  (`data.size == 0`, line 166);
* when the rounded window's shape differs from the block buffer's
  shape, the numpy masked assignments of lines 193-207 raise, which the
  `except` at line 209 turns into skipping the source;
* otherwise the buffer is updated pixel-wise by `updatePixel` and
  `has_valid_data` is set when the window has any valid pixel. -/
def stepSrc (fim : FimType) (nodata : ℚ) (bw : BlockWin) (b : GeoBounds)
    (fails : Bool) (s : SrcRaster) (st : (ℤ → ℤ → ℚ) × Bool) :
    (ℤ → ℤ → ℚ) × Bool :=
  if fails then st
  else
    let fw := srcWindowF s b
    if fw.2.2.1 ≤ 0 ∨ fw.2.2.2 ≤ 0 then st
    else
      let c0 := ⌊fw.1⌋
      let r0 := ⌊fw.2.1⌋
      let w' := ⌊fw.2.2.1⌋
      let h' := ⌊fw.2.2.2⌋
      if w' ≤ 0 ∨ h' ≤ 0 then st
      else if ¬(h' = bw.h ∧ w' = bw.w) then st
      else if anyValid s r0 c0 h' w' then
        (fun i j =>
          if 0 ≤ i ∧ i < bw.h ∧ 0 ≤ j ∧ j < bw.w then
            let v := readAt s r0 c0 i j
            updatePixel nodata (validAt s v) (transformAt fim (validAt s v) v) (st.1 i j)
          else st.1 i j,
         true)
      else st

/-- The extent-mode re-binarization of a finished block buffer
(lines 213-216): where the buffer is valid and positive it is forced to
`1`; applied only when the block saw any valid data. -/
def clampExtent (nodata : ℚ) (buf : ℤ → ℤ → ℚ) : ℤ → ℤ → ℚ :=
  fun i j => if buf i j ≠ nodata ∧ 0 < buf i j then 1 else buf i j

/-- Georeferenced bounds of a block window (lines 131, 142-144):
`window_transform` shifts the output origin by the window offsets, and
`array_bounds` turns shape plus transform into a rectangle.  `gLeft`,
`gTop` are the output origin, `gResX`, `gResY` the output pixel
sizes. -/
def blockBounds (gLeft gTop gResX gResY : ℚ) (bw : BlockWin) : GeoBounds :=
  { left := gLeft + bw.colOff * gResX
    top := gTop - bw.rowOff * gResY
    right := gLeft + bw.colOff * gResX + bw.w * gResX
    bottom := gTop - bw.rowOff * gResY - bw.h * gResY }

/-- Processing of one block (lines 129-216): the buffer starts filled
with nodata (`has_valid_data = False`), every source is folded in, and
in extent mode the finished buffer is re-binarized when any valid data
was seen. -/
def processWindow (fim : FimType) (nodata : ℚ) (srcs : List SrcRaster)
    (o : Oracle) (blkIdx : ℕ) (gLeft gTop gResX gResY : ℚ) (bw : BlockWin) :
    ℤ → ℤ → ℚ :=
  let b := blockBounds gLeft gTop gResX gResY bw
  let st := (List.zip (List.range srcs.length) srcs).foldl
    (fun st p => stepSrc fim nodata bw b (o.readFail blkIdx p.1) p.2 st)
    (fun _ _ => nodata, false)
  if fim = .extent ∧ st.2 then clampExtent nodata st.1 else st.1

/-- `dst.write(out_data, window=window, indexes=1)` (line 219): the
destination content updated on the window's rectangle from the
block-local buffer. -/
def writeWin (content : ℤ → ℤ → ℚ) (bw : BlockWin) (buf : ℤ → ℤ → ℚ) :
    ℤ → ℤ → ℚ :=
  fun r c =>
    if bw.rowOff ≤ r ∧ r < bw.rowOff + bw.h ∧ bw.colOff ≤ c ∧ c < bw.colOff + bw.w
    then buf (r - bw.rowOff) (c - bw.colOff)
    else content r c

/-- Number of 256-pixel tiles covering `n` pixels. -/
def tileCount (n : ℤ) : ℕ := (n.toNat + 255) / 256

/-- `dst.block_windows(1)` (line 126) for a tiled output of height `H`
and width `W` with 256×256 blocks, in row-major order; edge windows are
cropped to the dataset bounds. -/
def blockWindows (H W : ℤ) : List BlockWin :=
  (List.range (tileCount H)).flatMap fun (bi : ℕ) =>
    (List.range (tileCount W)).map fun (bj : ℕ) =>
      { rowOff := 256 * (bi : ℤ)
        colOff := 256 * (bj : ℤ)
        h := min 256 (H - 256 * (bi : ℤ))
        w := min 256 (W - 256 * (bj : ℤ)) }

/-- The block loop (lines 129-219): blocks are processed and written in
order; a modelled `dst.write` failure aborts the loop, leaving the
content written so far (`Option MosaicError` reports the failure). -/
def writeBlocks (fim : FimType) (nodata : ℚ) (srcs : List SrcRaster)
    (o : Oracle) (gLeft gTop gResX gResY : ℚ) :
    List BlockWin → ℕ → (ℤ → ℤ → ℚ) → (ℤ → ℤ → ℚ) × Option MosaicError
  | [], _, content => (content, none)
  | bw :: rest, idx, content =>
    let buf := processWindow fim nodata srcs o idx gLeft gTop gResX gResY bw
    if o.writeFail idx then (content, some .writeError)
    else writeBlocks fim nodata srcs o gLeft gTop gResX gResY rest (idx + 1)
      (writeWin content bw buf)

/-- The clip geometry, modelled at the interface boundary of
`rasterio.mask.mask`: the rasterized boolean footprint of the vector
geometry on the output grid. -/
structure ClipSpec where
  footprint : ℤ → ℤ → Bool

/-- The clip stage's effect on the content (lines 234-237):
`mask(src, geoms, crop=False, nodata=nodata)` keeps pixels covered by
the footprint and writes the nodata sentinel elsewhere; the result is
written back over the whole band. -/
def clipContent (g : ClipSpec) (nodata : ℚ) (content : ℤ → ℤ → ℚ) :
    ℤ → ℤ → ℚ :=
  fun r c => if g.footprint r c then content r c else nodata

/-- Observable outcome of one `mosaic_rasters` run: the returned value
or raised error, the phase of a failure, whether the destination file
was created (line 124) and whether it was ever removed afterwards,
whether the source handles were closed (the `finally` at lines
239-242), the destination's pixel content, and the destination's
georeferenced bounds and pixel dimensions from its profile. -/
structure Outcome where
  result : Except MosaicError String
  failStage : Option Stage
  created : Bool
  removed : Bool
  srcsClosed : Bool
  content : ℤ → ℤ → ℚ
  bounds : GeoBounds
  outW : ℤ
  outH : ℤ

/-- Helper: the outcome of a failure before the destination is
created. -/
def earlyFail (e : MosaicError) (st : Stage) : Outcome :=
  { result := .error e, failStage := some st, created := false,
    removed := false, srcsClosed := true, content := fun _ _ => 0,
    bounds := ⟨0, 0, 0, 0⟩, outW := 0, outH := 0 }

/-- `left = min(bound.left for bound in bounds)` (line 88): Python's
`min` of the nonempty list of source lefts. -/
def unionLeft (s0 : SrcRaster) (rest : List SrcRaster) : ℚ :=
  rest.foldl (fun a s => min a s.left) s0.left

/-- `bottom = min(bound.bottom for bound in bounds)` (line 89). -/
def unionBottom (s0 : SrcRaster) (rest : List SrcRaster) : ℚ :=
  rest.foldl (fun a s => min a s.bottomEdge) s0.bottomEdge

/-- `right = max(bound.right for bound in bounds)` (line 90). -/
def unionRight (s0 : SrcRaster) (rest : List SrcRaster) : ℚ :=
  rest.foldl (fun a s => max a s.rightEdge) s0.rightEdge

/-- `top = max(bound.top for bound in bounds)` (line 91). -/
def unionTop (s0 : SrcRaster) (rest : List SrcRaster) : ℚ :=
  rest.foldl (fun a s => max a s.top) s0.top

/-- `width = int((right - left) / res[0] + 0.5)` (line 99), reached
only when `res[0] ≠ 0`. -/
def outWidth (s0 : SrcRaster) (rest : List SrcRaster) : ℤ :=
  pyInt ((unionRight s0 rest - unionLeft s0 rest) / s0.resX + 1/2)

/-- `height = int((top - bottom) / res[1] + 0.5)` (line 100), reached
only when `res[1] ≠ 0`. -/
def outHeight (s0 : SrcRaster) (rest : List SrcRaster) : ℤ :=
  pyInt ((unionTop s0 rest - unionBottom s0 rest) / s0.resY + 1/2)

/-- The engine's pipeline up to (and including) the block loop, i.e.
`mosaic_rasters` with `clip_geometry=None` (lines 51-219 plus the
`finally`).

Control flow follows the source: `fim_type` is already enforced by the
`FimType` argument's type (line 51); an empty input list raises a
`ValueError` (line 54); all sources must share the first source's CRS
(line 83) and resolution (line 95); the union bounds (lines 87-91) and
the output dimensions `int((span)/res + 0.5)` (lines 99-100) follow;
the profile transform is `from_bounds(left, bottom, right, top, width,
height)` (line 109), whose divisions by `width`/`height` are Python
float divisions; then the destination is created and the block loop
runs.  The `finally` closes all sources on every path, and nothing
ever deletes the destination file. -/
def mosaicNoClip (srcs : List SrcRaster) (outputPath : String)
    (fim : FimType) (o : Oracle) : Outcome :=
  match srcs with
  | [] => earlyFail (.valueError "No rasters provided for mosaicking.") .validation
  | s0 :: rest =>
    if ¬ srcs.all (fun s => s.crs = s0.crs) then
      earlyFail (.valueError "All rasters must have the same CRS") .validation
    else
      let L := unionLeft s0 rest
      let B := unionBottom s0 rest
      let R := unionRight s0 rest
      let T := unionTop s0 rest
      if ¬ srcs.all (fun s => s.resX = s0.resX ∧ s.resY = s0.resY) then
        earlyFail (.valueError "All rasters must have the same resolution") .validation
      else
        match pyDiv (R - L) s0.resX with
        | .error e => earlyFail e .dimensions
        | .ok qw =>
          let W := pyInt (qw + 1/2)
          match pyDiv (T - B) s0.resY with
          | .error e => earlyFail e .dimensions
          | .ok qh =>
            let H := pyInt (qh + 1/2)
            match pyDiv (R - L) (W : ℚ) with
            | .error e => earlyFail e .dimensions
            | .ok gResX =>
              match pyDiv (T - B) (H : ℚ) with
              | .error e => earlyFail e .dimensions
              | .ok gResY =>
                let nodata := outNodata fim
                let bwins := blockWindows H W
                let wres := writeBlocks fim nodata srcs o L T gResX gResY
                  bwins 0 (fun _ _ => nodata)
                match wres.2 with
                | some e =>
                  { result := .error e, failStage := some .blockLoop,
                    created := true, removed := false, srcsClosed := true,
                    content := wres.1, bounds := ⟨L, B, R, T⟩,
                    outW := W, outH := H }
                | none =>
                  { result := .ok outputPath, failStage := none,
                    created := true, removed := false, srcsClosed := true,
                    content := wres.1, bounds := ⟨L, B, R, T⟩,
                    outW := W, outH := H }

/-- The mosaicking engine `mosaic_rasters` of `fim_mosaicker/mosaic.py`
(lines 14-244): the core pipeline `mosaicNoClip`, followed — only when
every block was written — by the optional clip stage (lines 221-237).
A failure opening the clip-geometry source raises after the blocks were
written; otherwise the clipped band replaces the content. -/
def mosaic_rasters (srcs : List SrcRaster) (outputPath : String)
    (clip : Option ClipSpec) (fim : FimType) (o : Oracle) : Outcome :=
  let base := mosaicNoClip srcs outputPath fim o
  match clip with
  | none => base
  | some g =>
    match base.result with
    | .error _ => base
    | .ok _ =>
      if o.clipOpenFail then
        { base with result := .error .clipOpenError,
                    failStage := some .clipStage }
      else
        { base with content := clipContent g (outNodata fim) base.content }

/-- The per-pixel `temp` value of lines 189-190: the (transformed)
sample where valid, the output nodata sentinel where not — the
candidate a source offers to the compositor at one pixel. -/
def tempAt (fim : FimType) (nodata : ℚ) (s : SrcRaster) (v : ℚ) : ℚ :=
  if validAt s v then transformAt fim (validAt s v) v else nodata

/-- Modelled from the spec: per-axis pixel sizes differing "beyond a
small relative tolerance (≈1e-7 relative)". -/
def relTolExceeded (x y : ℚ) : Prop := |x - y| > |y| / 10000000

/-- Modelled from the spec: source `s` covers output pixel `(r, c)` of
the grid with origin `(L, T)` and pixel sizes `resX, resY` — the
pixel's georeferenced cell lies inside the source's extent. -/
def coversCell (s : SrcRaster) (L T resX resY : ℚ) (r c : ℤ) : Prop :=
  s.left ≤ L + c * resX ∧ L + (c + 1) * resX ≤ s.rightEdge ∧
  T - r * resY ≤ s.top ∧ s.bottomEdge ≤ T - (r + 1) * resY

instance (s : SrcRaster) (L T resX resY : ℚ) (r c : ℤ) :
    Decidable (coversCell s L T resX resY r c) := by
  unfold coversCell; infer_instance

/-- Modelled from the spec: the sample of source `s` at the location of
output pixel `(r, c)` — the source cell containing the output pixel's
center. -/
def specSample (s : SrcRaster) (L T resX resY : ℚ) (r c : ℤ) : ℚ :=
  s.data ⌊(s.top - (T - (r + 1/2) * resY)) / s.resY⌋
         ⌊((L + (c + 1/2) * resX) - s.left) / s.resX⌋

/-- Modelled from the spec: the valid (non-nodata) values among all
inputs covering output pixel `(r, c)`. -/
def specValidValues (srcs : List SrcRaster) (L T resX resY : ℚ) (r c : ℤ) :
    List ℚ :=
  srcs.filterMap fun s =>
    if coversCell s L T resX resY r c ∧ validAt s (specSample s L T resX resY r c)
    then some (specSample s L T resX resY r c) else none

/-- Modelled from the spec: the maximum of a list of valid values, or
the nodata sentinel when there is none. -/
def specMaxValue (vals : List ℚ) (nodata : ℚ) : ℚ :=
  match vals with
  | [] => nodata
  | v :: vs => vs.foldl max v

/-- Modelled from the spec: the per-pixel value the specification
promises — "the maximum valid value among all inputs covering that
pixel, or the output nodata sentinel if no input covers it with a valid
value". -/
def specPixelValue (srcs : List SrcRaster) (L T resX resY nodata : ℚ)
    (r c : ℤ) : ℚ :=
  specMaxValue (specValidValues srcs L T resX resY r c) nodata

/-- The rounded row offset of the source window for block bounds `b`
(`round_offsets`, line 158). -/
def srcR0 (s : SrcRaster) (b : GeoBounds) : ℤ := ⌊(srcWindowF s b).2.1⌋

/-- The rounded column offset of the source window for block bounds
`b`. -/
def srcC0 (s : SrcRaster) (b : GeoBounds) : ℤ := ⌊(srcWindowF s b).1⌋

/-- The condition under which the per-source step of the compositor
actually updates the block buffer: none of the skip guards of lines
152-211 fire and the window contains a valid pixel (line 186). -/
def srcActive (bw : BlockWin) (b : GeoBounds) (s : SrcRaster) : Prop :=
  ¬((srcWindowF s b).2.2.1 ≤ 0 ∨ (srcWindowF s b).2.2.2 ≤ 0) ∧
  ¬(⌊(srcWindowF s b).2.2.1⌋ ≤ 0 ∨ ⌊(srcWindowF s b).2.2.2⌋ ≤ 0) ∧
  (⌊(srcWindowF s b).2.2.2⌋ = bw.h ∧ ⌊(srcWindowF s b).2.2.1⌋ = bw.w) ∧
  anyValid s (srcR0 s b) (srcC0 s b)
    ⌊(srcWindowF s b).2.2.2⌋ ⌊(srcWindowF s b).2.2.1⌋ = true

instance (bw : BlockWin) (b : GeoBounds) (s : SrcRaster) :
    Decidable (srcActive bw b s) := by
  unfold srcActive
  infer_instance

/-- Whether a block window contains the output pixel `(r, c)`. -/
def winContains (bw : BlockWin) (r c : ℤ) : Prop :=
  bw.rowOff ≤ r ∧ r < bw.rowOff + bw.h ∧ bw.colOff ≤ c ∧ c < bw.colOff + bw.w

instance (bw : BlockWin) (r c : ℤ) : Decidable (winContains bw r c) := by
  unfold winContains
  infer_instance

/-- A one-pixel test raster with unit resolution at position
`(left, top)`, holding the constant sample `val`. -/
def testSrc (left top : ℚ) (nd : Option ℚ) (val : ℚ) : SrcRaster :=
  ⟨left, top, 1, 1, 1, 1, 0, nd, fun _ _ => val⟩

/-- An oracle whose every sub-window read raises. -/
def readFailOracle : Oracle := ⟨fun _ _ => true, fun _ => false, false⟩

/-- An oracle whose every `dst.write` raises. -/
def writeFailOracle : Oracle := ⟨fun _ _ => false, fun _ => true, false⟩

/-! ## Helper lemmas -/

theorem foldl_min_le_init {α : Type} {f : α → ℚ} :
    ∀ (l : List α) (a : ℚ), l.foldl (fun a s => min a (f s)) a ≤ a
  | [], _ => le_refl _
  | s :: l, a =>
    le_trans (foldl_min_le_init l (min a (f s))) (min_le_left _ _)

theorem le_foldl_max_init {α : Type} {f : α → ℚ} :
    ∀ (l : List α) (a : ℚ), a ≤ l.foldl (fun a s => max a (f s)) a
  | [], _ => le_refl _
  | s :: l, a =>
    le_trans (le_max_left _ _) (le_foldl_max_init l (max a (f s)))

theorem foldl_min_le_mem {α : Type} {f : α → ℚ} :
    ∀ (l : List α) (a : ℚ) (s : α), s ∈ l →
      l.foldl (fun a s => min a (f s)) a ≤ f s
  | [], _, _, h => absurd h (List.not_mem_nil _)
  | x :: l, a, s, h => by
    rcases List.mem_cons.mp h with h | h
    · subst h
      exact le_trans (foldl_min_le_init l (min a (f s))) (min_le_right _ _)
    · exact foldl_min_le_mem l (min a (f x)) s h

theorem le_foldl_max_mem {α : Type} {f : α → ℚ} :
    ∀ (l : List α) (a : ℚ) (s : α), s ∈ l →
      f s ≤ l.foldl (fun a s => max a (f s)) a
  | [], _, _, h => absurd h (List.not_mem_nil _)
  | x :: l, a, s, h => by
    rcases List.mem_cons.mp h with h | h
    · subst h
      exact le_trans (le_max_right _ _) (le_foldl_max_init l (max a (f s)))
    · exact le_foldl_max_mem l (max a (f x)) s h

theorem foldl_min_mem {α : Type} {f : α → ℚ} :
    ∀ (l : List α) (a : ℚ),
      l.foldl (fun a s => min a (f s)) a = a ∨
      ∃ s ∈ l, l.foldl (fun a s => min a (f s)) a = f s
  | [], _ => by simp
  | x :: l, a => by
    have hfold : (x :: l).foldl (fun a s => min a (f s)) a =
        l.foldl (fun a s => min a (f s)) (min a (f x)) := rfl
    rcases foldl_min_mem (f := f) l (min a (f x)) with h | ⟨s, hs, h⟩
    · rcases min_choice a (f x) with hm | hm
      · exact Or.inl (by rw [hfold, h, hm])
      · exact Or.inr ⟨x, List.mem_cons_self x l, by rw [hfold, h, hm]⟩
    · exact Or.inr ⟨s, List.mem_cons_of_mem x hs, by rw [hfold, h]⟩

theorem foldl_max_mem {α : Type} {f : α → ℚ} :
    ∀ (l : List α) (a : ℚ),
      l.foldl (fun a s => max a (f s)) a = a ∨
      ∃ s ∈ l, l.foldl (fun a s => max a (f s)) a = f s
  | [], _ => by simp
  | x :: l, a => by
    have hfold : (x :: l).foldl (fun a s => max a (f s)) a =
        l.foldl (fun a s => max a (f s)) (max a (f x)) := rfl
    rcases foldl_max_mem (f := f) l (max a (f x)) with h | ⟨s, hs, h⟩
    · rcases max_choice a (f x) with hm | hm
      · exact Or.inl (by rw [hfold, h, hm])
      · exact Or.inr ⟨x, List.mem_cons_self x l, by rw [hfold, h, hm]⟩
    · exact Or.inr ⟨s, List.mem_cons_of_mem x hs, by rw [hfold, h]⟩

/-- The union bounds contain every source's extent. -/
theorem union_contains (s0 : SrcRaster) (rest : List SrcRaster)
    (s : SrcRaster) (hs : s ∈ s0 :: rest) :
    unionLeft s0 rest ≤ s.left ∧ s.rightEdge ≤ unionRight s0 rest ∧
    unionBottom s0 rest ≤ s.bottomEdge ∧ s.top ≤ unionTop s0 rest := by
  rcases List.mem_cons.mp hs with h | h
  · subst h
    exact ⟨foldl_min_le_init _ _, le_foldl_max_init _ _,
      foldl_min_le_init _ _, le_foldl_max_init _ _⟩
  · exact ⟨foldl_min_le_mem _ _ _ h, le_foldl_max_mem _ _ _ h,
      foldl_min_le_mem _ _ _ h, le_foldl_max_mem _ _ _ h⟩

/-- Each union bound is attained by some source. -/
theorem union_attained (s0 : SrcRaster) (rest : List SrcRaster) :
    (∃ s ∈ s0 :: rest, unionLeft s0 rest = s.left) ∧
    (∃ s ∈ s0 :: rest, unionRight s0 rest = s.rightEdge) ∧
    (∃ s ∈ s0 :: rest, unionBottom s0 rest = s.bottomEdge) ∧
    (∃ s ∈ s0 :: rest, unionTop s0 rest = s.top) := by
  refine ⟨?_, ?_, ?_, ?_⟩
  · rcases foldl_min_mem (f := fun s => s.left) rest s0.left with h | ⟨s, hs, h⟩
    · exact ⟨s0, List.mem_cons_self _ _, h⟩
    · exact ⟨s, List.mem_cons_of_mem _ hs, h⟩
  · rcases foldl_max_mem (f := fun s => s.rightEdge) rest s0.rightEdge with h | ⟨s, hs, h⟩
    · exact ⟨s0, List.mem_cons_self _ _, h⟩
    · exact ⟨s, List.mem_cons_of_mem _ hs, h⟩
  · rcases foldl_min_mem (f := fun s => s.bottomEdge) rest s0.bottomEdge with h | ⟨s, hs, h⟩
    · exact ⟨s0, List.mem_cons_self _ _, h⟩
    · exact ⟨s, List.mem_cons_of_mem _ hs, h⟩
  · rcases foldl_max_mem (f := fun s => s.top) rest s0.top with h | ⟨s, hs, h⟩
    · exact ⟨s0, List.mem_cons_self _ _, h⟩
    · exact ⟨s, List.mem_cons_of_mem _ hs, h⟩

/-- The rounded output width is at least one pixel when the reference
source is nondegenerate. -/
theorem outWidth_pos (s0 : SrcRaster) (rest : List SrcRaster)
    (hrx : 0 < s0.resX) (hw : 1 ≤ s0.width) : 1 ≤ outWidth s0 rest := by
  have hspan : s0.resX ≤ unionRight s0 rest - unionLeft s0 rest := by
    have h1 : unionLeft s0 rest ≤ s0.left := foldl_min_le_init _ _
    have h2 : s0.rightEdge ≤ unionRight s0 rest := le_foldl_max_init _ _
    have : s0.left + s0.resX ≤ s0.rightEdge := by
      unfold SrcRaster.rightEdge
      have : (1 : ℚ) * s0.resX ≤ (s0.width : ℚ) * s0.resX := by
        apply mul_le_mul_of_nonneg_right _ (le_of_lt hrx)
        exact_mod_cast hw
      linarith
    linarith
  have hq : (1 : ℚ) ≤ (unionRight s0 rest - unionLeft s0 rest) / s0.resX := by
    rw [le_div_iff₀ hrx]
    linarith
  unfold outWidth pyInt
  have hpos : (0:ℚ) ≤ (unionRight s0 rest - unionLeft s0 rest) / s0.resX + 1/2 := by
    linarith
  rw [if_pos hpos]
  have : (1 : ℚ) ≤ (unionRight s0 rest - unionLeft s0 rest) / s0.resX + 1/2 := by
    linarith
  exact_mod_cast Int.le_floor.mpr (by push_cast; linarith)

/-- The rounded output height is at least one pixel when the reference
source is nondegenerate. -/
theorem outHeight_pos (s0 : SrcRaster) (rest : List SrcRaster)
    (hry : 0 < s0.resY) (hh : 1 ≤ s0.height) : 1 ≤ outHeight s0 rest := by
  have hspan : s0.resY ≤ unionTop s0 rest - unionBottom s0 rest := by
    have h1 : unionBottom s0 rest ≤ s0.bottomEdge := foldl_min_le_init _ _
    have h2 : s0.top ≤ unionTop s0 rest := le_foldl_max_init _ _
    have : s0.bottomEdge + s0.resY ≤ s0.top := by
      unfold SrcRaster.bottomEdge
      have : (1 : ℚ) * s0.resY ≤ (s0.height : ℚ) * s0.resY := by
        apply mul_le_mul_of_nonneg_right _ (le_of_lt hry)
        exact_mod_cast hh
      linarith
    linarith
  have hq : (1 : ℚ) ≤ (unionTop s0 rest - unionBottom s0 rest) / s0.resY := by
    rw [le_div_iff₀ hry]
    linarith
  unfold outHeight pyInt
  have hpos : (0:ℚ) ≤ (unionTop s0 rest - unionBottom s0 rest) / s0.resY + 1/2 := by
    linarith
  rw [if_pos hpos]
  exact_mod_cast Int.le_floor.mpr (by push_cast; linarith)

/-- The block loop never reports a failure when the oracle's
`dst.write` never raises. -/
theorem writeBlocks_none (fim : FimType) (nodata : ℚ) (srcs : List SrcRaster)
    (o : Oracle) (L T gx gy : ℚ) (hwf : ∀ i, o.writeFail i = false) :
    ∀ (l : List BlockWin) (idx : ℕ) (c : ℤ → ℤ → ℚ),
      (writeBlocks fim nodata srcs o L T gx gy l idx c).2 = none
  | [], _, _ => rfl
  | bw :: rest, idx, c => by
    unfold writeBlocks
    simp only [hwf idx, Bool.false_eq_true, if_false]
    exact writeBlocks_none fim nodata srcs o L T gx gy hwf rest (idx + 1) _

/-- Bookkeeping invariants of the core pipeline: the destination is
never removed, the sources are always closed, a block-loop failure
happens after the destination was created, a clip-stage failure never
originates here, and success implies the destination was created. -/
theorem mosaicNoClip_flags (srcs : List SrcRaster) (p : String)
    (fim : FimType) (o : Oracle) :
    (mosaicNoClip srcs p fim o).removed = false ∧
    (mosaicNoClip srcs p fim o).srcsClosed = true ∧
    ((mosaicNoClip srcs p fim o).failStage = some .blockLoop ∨
      (mosaicNoClip srcs p fim o).failStage = some .clipStage →
      (mosaicNoClip srcs p fim o).created = true) ∧
    (∀ q, (mosaicNoClip srcs p fim o).result = .ok q →
      (mosaicNoClip srcs p fim o).created = true) := by
  cases srcs with
  | nil => simp [mosaicNoClip, earlyFail]
  | cons s0 rest =>
    unfold mosaicNoClip
    dsimp only
    repeat' split
    all_goals simp [earlyFail]

/-- When the core pipeline fails, the clip wrapper returns it
unchanged. -/
theorem mosaic_eq_base_of_error (srcs : List SrcRaster) (p : String)
    (clip : Option ClipSpec) (fim : FimType) (o : Oracle) (e : MosaicError)
    (h : (mosaicNoClip srcs p fim o).result = .error e) :
    mosaic_rasters srcs p clip fim o = mosaicNoClip srcs p fim o := by
  unfold mosaic_rasters
  cases clip with
  | none => rfl
  | some g => simp only [h]

/-- Bookkeeping invariants of the full engine, lifted through the clip
wrapper. -/
theorem mosaic_flags (srcs : List SrcRaster) (p : String)
    (clip : Option ClipSpec) (fim : FimType) (o : Oracle) :
    (mosaic_rasters srcs p clip fim o).removed = false ∧
    (mosaic_rasters srcs p clip fim o).srcsClosed = true ∧
    ((mosaic_rasters srcs p clip fim o).failStage = some .blockLoop ∨
      (mosaic_rasters srcs p clip fim o).failStage = some .clipStage →
      (mosaic_rasters srcs p clip fim o).created = true) := by
  obtain ⟨h1, h2, h3, h4⟩ := mosaicNoClip_flags srcs p fim o
  unfold mosaic_rasters
  cases clip with
  | none => exact ⟨h1, h2, h3⟩
  | some g =>
    cases hr : (mosaicNoClip srcs p fim o).result with
    | error e => simpa only [hr] using ⟨h1, h2, h3⟩
    | ok q =>
      simp only [hr]
      by_cases hc : o.clipOpenFail
      · simp only [hc, if_true]
        exact ⟨h1, h2, fun _ => h4 q hr⟩
      · simp only [hc, if_false]
        exact ⟨h1, h2, h3⟩

theorem pyDiv_ok (a b : ℚ) (h : b ≠ 0) : pyDiv a b = .ok (a / b) := if_neg h

theorem pyDiv_zero (a : ℚ) : pyDiv a 0 = .error .zeroDivisionError := if_pos rfl

/-- Pixel sizes differing beyond the relative tolerance in particular
differ exactly, which is what the code's equality check tests. -/
theorem relTolExceeded_ne (x y : ℚ) (h : relTolExceeded x y) : x ≠ y := by
  intro he
  subst he
  unfold relTolExceeded at h
  rw [sub_self, abs_zero] at h
  have : (0:ℚ) ≤ |x| / 10000000 := by positivity
  linarith

/-- Normal form of the core pipeline on validation-passing input: the
run reaches the block loop and, when no `dst.write` fails, returns the
output path. -/
theorem mosaicNoClip_ok_result (s0 : SrcRaster) (rest : List SrcRaster)
    (p : String) (fim : FimType) (o : Oracle)
    (hcrs : ∀ s ∈ s0 :: rest, s.crs = s0.crs)
    (hres : ∀ s ∈ s0 :: rest, s.resX = s0.resX ∧ s.resY = s0.resY)
    (hrx : 0 < s0.resX) (hry : 0 < s0.resY)
    (hw : 1 ≤ s0.width) (hh : 1 ≤ s0.height)
    (hwf : ∀ i, o.writeFail i = false) :
    (mosaicNoClip (s0 :: rest) p fim o).result = .ok p := by
  have hcall : ((s0 :: rest).all fun s => s.crs = s0.crs) = true :=
    List.all_eq_true.mpr fun s hs => decide_eq_true (hcrs s hs)
  have hrall : ((s0 :: rest).all fun s => s.resX = s0.resX ∧ s.resY = s0.resY) = true :=
    List.all_eq_true.mpr fun s hs => decide_eq_true (hres s hs)
  have hx : s0.resX ≠ 0 := ne_of_gt hrx
  have hy : s0.resY ≠ 0 := ne_of_gt hry
  have hW := outWidth_pos s0 rest hrx hw
  have hH := outHeight_pos s0 rest hry hh
  have hWQ : ((pyInt ((unionRight s0 rest - unionLeft s0 rest) / s0.resX + 1/2) : ℤ) : ℚ) ≠ 0 := by
    have h1 : (1:ℤ) ≤ pyInt ((unionRight s0 rest - unionLeft s0 rest) / s0.resX + 1/2) := hW
    simp only [ne_eq, Int.cast_eq_zero]
    omega
  have hHQ : ((pyInt ((unionTop s0 rest - unionBottom s0 rest) / s0.resY + 1/2) : ℤ) : ℚ) ≠ 0 := by
    have h1 : (1:ℤ) ≤ pyInt ((unionTop s0 rest - unionBottom s0 rest) / s0.resY + 1/2) := hH
    simp only [ne_eq, Int.cast_eq_zero]
    omega
  unfold mosaicNoClip
  dsimp only
  rw [if_neg (not_not_intro hcall), if_neg (not_not_intro hrall)]
  rw [pyDiv_ok _ _ hx]
  dsimp only
  rw [pyDiv_ok _ _ hy]
  dsimp only
  rw [pyDiv_ok _ _ hWQ]
  dsimp only
  rw [pyDiv_ok _ _ hHQ]
  dsimp only
  rw [writeBlocks_none _ _ _ _ _ _ _ _ hwf]

/-! ## Claim theorems -/

/-- C4: in extent mode, the per-pixel candidate a source offers to the
compositor (the `temp` value built from the binarize transform of
lines 177-183 and the validity mask of lines 186-190) maps every valid
nonzero source value to 1, every valid zero to 0, and turns a pixel
equal to the input's nodata sentinel into the output nodata sentinel —
nodata is preserved as nodata. -/
theorem C4_binarize (s : SrcRaster) (nd v : ℚ) (h : s.nodata = some nd) :
    (v ≠ nd → v ≠ 0 → tempAt .extent (outNodata .extent) s v = 1) ∧
    (v ≠ nd → v = 0 → tempAt .extent (outNodata .extent) s v = 0) ∧
    (v = nd → tempAt .extent (outNodata .extent) s v = outNodata .extent) := by
  unfold tempAt validAt transformAt
  rw [h]
  refine ⟨fun h1 h2 => ?_, fun h1 h2 => ?_, fun h1 => ?_⟩ <;> simp_all

/-- C4 witness: concrete evaluations of the three cases. -/
theorem C4_binarize_witness :
    tempAt .extent (outNodata .extent) (testSrc 0 1 (some 7) 3) 3 = 1 ∧
    tempAt .extent (outNodata .extent) (testSrc 0 1 (some 7) 3) 0 = 0 ∧
    tempAt .extent (outNodata .extent) (testSrc 0 1 (some 7) 3) 7 = outNodata .extent :=
  ⟨(C4_binarize (testSrc 0 1 (some 7) 3) 7 3 rfl).1 (by norm_num) (by norm_num),
   (C4_binarize (testSrc 0 1 (some 7) 3) 7 0 rfl).2.1 (by norm_num) rfl,
   (C4_binarize (testSrc 0 1 (some 7) 3) 7 7 rfl).2.2 rfl⟩

/-- C5: the clip stage only removes data — every valid (non-nodata)
pixel of the clipped output keeps its composited value from the
unclipped output, which is in particular valid there too. -/
theorem C5_clip_only_removes (srcs : List SrcRaster) (p : String)
    (g : ClipSpec) (fim : FimType) (o : Oracle) (q : String)
    (hok : (mosaic_rasters srcs p (some g) fim o).result = .ok q) (r c : ℤ)
    (hvalid : (mosaic_rasters srcs p (some g) fim o).content r c ≠ outNodata fim) :
    (mosaic_rasters srcs p (some g) fim o).content r c =
      (mosaic_rasters srcs p none fim o).content r c ∧
    (mosaic_rasters srcs p none fim o).content r c ≠ outNodata fim := by
  have hbase : mosaic_rasters srcs p none fim o = mosaicNoClip srcs p fim o := rfl
  rw [hbase]
  cases hr : (mosaicNoClip srcs p fim o).result with
  | error e =>
    exfalso
    have : (mosaic_rasters srcs p (some g) fim o).result = .error e := by
      simp [mosaic_rasters, hr]
    rw [hok] at this
    exact Except.noConfusion this
  | ok q2 =>
    by_cases hcf : o.clipOpenFail
    · exfalso
      have : (mosaic_rasters srcs p (some g) fim o).result = .error .clipOpenError := by
        simp [mosaic_rasters, hr, hcf]
      rw [hok] at this
      exact Except.noConfusion this
    · have hcontent : (mosaic_rasters srcs p (some g) fim o).content =
          clipContent g (outNodata fim) (mosaicNoClip srcs p fim o).content := by
        simp [mosaic_rasters, hr, hcf]
      rw [hcontent] at hvalid
      rw [hcontent]
      unfold clipContent at hvalid ⊢
      by_cases hfp : g.footprint r c = true
      · rw [if_pos hfp] at hvalid ⊢
        exact ⟨rfl, hvalid⟩
      · rw [if_neg hfp] at hvalid
        exact absurd rfl hvalid

/-- C5 witness: a geometry covering the whole grid keeps the composited
value of a valid pixel. -/
theorem C5_witness :
    (mosaic_rasters [testSrc 0 1 (some 0) 5] "out" (some ⟨fun _ _ => true⟩)
        .depth noFail).content 0 0 =
      (mosaic_rasters [testSrc 0 1 (some 0) 5] "out" none .depth noFail).content 0 0 ∧
    (mosaic_rasters [testSrc 0 1 (some 0) 5] "out" none .depth
        noFail).content 0 0 ≠ outNodata .depth :=
  C5_clip_only_removes [testSrc 0 1 (some 0) 5] "out" ⟨fun _ _ => true⟩
    .depth noFail "out" rfl 0 0 (by decide)

/-- C6 counterexample: with a failing `dst.write`, the run signals
`WriteError` but the partially created destination file stays on disk —
contrary to the claim, it is not discarded or removed. -/
theorem C6_counterexample :
    (mosaic_rasters [testSrc 0 1 (some 0) 5] "out" none .depth writeFailOracle).result
        = .error .writeError ∧
    (mosaic_rasters [testSrc 0 1 (some 0) 5] "out" none .depth writeFailOracle).created
        = true ∧
    (mosaic_rasters [testSrc 0 1 (some 0) 5] "out" none .depth writeFailOracle).removed
        = false :=
  ⟨rfl, rfl, rfl⟩

/-- C6 (amended): on any failure the error is surfaced to the caller
and the open source handles are closed, and a failure in the block loop
or clip stage happens after the destination was created — but the
partially written destination file is never removed. -/
theorem C6_failure_keeps_partial_file (srcs : List SrcRaster) (p : String)
    (clip : Option ClipSpec) (fim : FimType) (o : Oracle) (e : MosaicError)
    (_herr : (mosaic_rasters srcs p clip fim o).result = .error e) :
    (mosaic_rasters srcs p clip fim o).removed = false ∧
    (mosaic_rasters srcs p clip fim o).srcsClosed = true ∧
    ((mosaic_rasters srcs p clip fim o).failStage = some .blockLoop ∨
      (mosaic_rasters srcs p clip fim o).failStage = some .clipStage →
      (mosaic_rasters srcs p clip fim o).created = true) :=
  mosaic_flags srcs p clip fim o

/-- C6 witness: the amended statement at the write-failure run. -/
theorem C6_witness :
    (mosaic_rasters [testSrc 0 1 (some 0) 6] "out" none .depth writeFailOracle).removed
        = false ∧
    (mosaic_rasters [testSrc 0 1 (some 0) 6] "out" none .depth writeFailOracle).srcsClosed
        = true ∧
    ((mosaic_rasters [testSrc 0 1 (some 0) 6] "out" none .depth
        writeFailOracle).failStage = some .blockLoop ∨
      (mosaic_rasters [testSrc 0 1 (some 0) 6] "out" none .depth
        writeFailOracle).failStage = some .clipStage →
      (mosaic_rasters [testSrc 0 1 (some 0) 6] "out" none .depth
        writeFailOracle).created = true) :=
  C6_failure_keeps_partial_file [testSrc 0 1 (some 0) 6] "out" none .depth
    writeFailOracle .writeError rfl

/-- C7: inputs whose per-axis pixel sizes differ beyond the ≈1e-7
relative tolerance, or whose CRS identifiers differ, make the run fail
with the corresponding typed error — the distinct `ValueError` of the
CRS check (line 84) or of the resolution check (line 96) — before any
output is created or written. -/
theorem C7_mismatch_errors (s0 : SrcRaster) (rest : List SrcRaster) (p : String)
    (clip : Option ClipSpec) (fim : FimType) (o : Oracle) :
    ((∃ s1 ∈ s0 :: rest, ∃ s2 ∈ s0 :: rest, s1.crs ≠ s2.crs) →
      (mosaic_rasters (s0 :: rest) p clip fim o).result =
        .error (.valueError "All rasters must have the same CRS") ∧
      (mosaic_rasters (s0 :: rest) p clip fim o).created = false) ∧
    ((∀ s ∈ s0 :: rest, s.crs = s0.crs) →
      (∃ s1 ∈ s0 :: rest, ∃ s2 ∈ s0 :: rest,
        relTolExceeded s1.resX s2.resX ∨ relTolExceeded s1.resY s2.resY) →
      (mosaic_rasters (s0 :: rest) p clip fim o).result =
        .error (.valueError "All rasters must have the same resolution") ∧
      (mosaic_rasters (s0 :: rest) p clip fim o).created = false) := by
  constructor
  · rintro ⟨s1, hs1, s2, hs2, hne⟩
    have hall : ¬ ((s0 :: rest).all fun s => s.crs = s0.crs) = true := by
      rw [List.all_eq_true]
      intro h
      exact hne ((of_decide_eq_true (h s1 hs1)).trans
        (of_decide_eq_true (h s2 hs2)).symm)
    have hbase : mosaicNoClip (s0 :: rest) p fim o =
        earlyFail (.valueError "All rasters must have the same CRS") .validation := by
      unfold mosaicNoClip
      dsimp only
      rw [if_pos hall]
    rw [mosaic_eq_base_of_error _ _ _ _ _ _ (by rw [hbase]; rfl), hbase]
    exact ⟨rfl, rfl⟩
  · rintro hcrs ⟨s1, hs1, s2, hs2, hne⟩
    have hcall : ((s0 :: rest).all fun s => s.crs = s0.crs) = true :=
      List.all_eq_true.mpr fun s hs => decide_eq_true (hcrs s hs)
    have hall : ¬ ((s0 :: rest).all fun s => s.resX = s0.resX ∧ s.resY = s0.resY) = true := by
      rw [List.all_eq_true]
      intro h
      have h1 := of_decide_eq_true (h s1 hs1)
      have h2 := of_decide_eq_true (h s2 hs2)
      rcases hne with hne | hne
      · exact relTolExceeded_ne _ _ hne (h1.1.trans h2.1.symm)
      · exact relTolExceeded_ne _ _ hne (h1.2.trans h2.2.symm)
    have hbase : mosaicNoClip (s0 :: rest) p fim o =
        earlyFail (.valueError "All rasters must have the same resolution") .validation := by
      unfold mosaicNoClip
      dsimp only
      rw [if_neg (not_not_intro hcall), if_pos hall]
    rw [mosaic_eq_base_of_error _ _ _ _ _ _ (by rw [hbase]; rfl), hbase]
    exact ⟨rfl, rfl⟩

/-- A source differing from `testSrc` only in its CRS identifier. -/
def crs1Src : SrcRaster := ⟨0, 1, 1, 1, 1, 1, 1, some 0, fun _ _ => 5⟩

/-- A source differing from `testSrc` in its x pixel size. -/
def res2Src : SrcRaster := ⟨0, 1, 2, 1, 1, 1, 0, some 0, fun _ _ => 5⟩

/-- C7 witness: concrete CRS-mismatching and resolution-mismatching
pairs fail with the respective errors. -/
theorem C7_witness :
    (mosaic_rasters [testSrc 0 1 (some 0) 5, crs1Src] "out" none .depth noFail).result =
      .error (.valueError "All rasters must have the same CRS") ∧
    (mosaic_rasters [testSrc 0 1 (some 0) 5, res2Src] "out" none .depth noFail).result =
      .error (.valueError "All rasters must have the same resolution") :=
  ⟨((C7_mismatch_errors (testSrc 0 1 (some 0) 5) [crs1Src] "out" none .depth noFail).1
      ⟨crs1Src, by simp, testSrc 0 1 (some 0) 5, by simp, by decide⟩).1,
   ((C7_mismatch_errors (testSrc 0 1 (some 0) 5) [res2Src] "out" none .depth noFail).2
      (by decide) ⟨res2Src, by simp, testSrc 0 1 (some 0) 5, by simp,
        Or.inl (by unfold relTolExceeded; decide)⟩).1⟩

/-- A source with a degenerate (zero) x pixel size. -/
def zeroResSrc : SrcRaster := ⟨0, 1, 0, 1, 1, 1, 0, some 0, fun _ _ => 5⟩

/-- C8 counterexample: with a zero pixel size the run does proceed into
the output-dimension computation and fails there with Python's untyped
`ZeroDivisionError` — there is no `DegenerateResolution` check ahead of
it, contrary to the claim. -/
theorem C8_counterexample :
    (mosaic_rasters [zeroResSrc] "out" none .depth noFail).result =
      .error .zeroDivisionError ∧
    (mosaic_rasters [zeroResSrc] "out" none .depth noFail).failStage =
      some .dimensions :=
  ⟨rfl, rfl⟩

/-- C8 (amended): a pixel size of zero makes the run fail inside the
output-dimension computation with an (untyped) `ZeroDivisionError`; no
output is created. -/
theorem C8_degenerate_resolution (s0 : SrcRaster) (rest : List SrcRaster)
    (p : String) (clip : Option ClipSpec) (fim : FimType) (o : Oracle)
    (hcrs : ∀ s ∈ s0 :: rest, s.crs = s0.crs)
    (hres : ∀ s ∈ s0 :: rest, s.resX = s0.resX ∧ s.resY = s0.resY)
    (hdeg : s0.resX = 0 ∨ s0.resY = 0) :
    (mosaic_rasters (s0 :: rest) p clip fim o).result = .error .zeroDivisionError ∧
    (mosaic_rasters (s0 :: rest) p clip fim o).failStage = some .dimensions ∧
    (mosaic_rasters (s0 :: rest) p clip fim o).created = false := by
  have hcall : ((s0 :: rest).all fun s => s.crs = s0.crs) = true :=
    List.all_eq_true.mpr fun s hs => decide_eq_true (hcrs s hs)
  have hrall : ((s0 :: rest).all fun s => s.resX = s0.resX ∧ s.resY = s0.resY) = true :=
    List.all_eq_true.mpr fun s hs => decide_eq_true (hres s hs)
  have hbase : mosaicNoClip (s0 :: rest) p fim o =
      earlyFail .zeroDivisionError .dimensions := by
    unfold mosaicNoClip
    dsimp only
    rw [if_neg (not_not_intro hcall), if_neg (not_not_intro hrall)]
    by_cases hx : s0.resX = 0
    · rw [hx, pyDiv_zero]
    · have hy : s0.resY = 0 := hdeg.resolve_left hx
      rw [pyDiv_ok _ _ hx]
      dsimp only
      rw [hy, pyDiv_zero]
  rw [mosaic_eq_base_of_error _ _ _ _ _ _ (by rw [hbase]; rfl), hbase]
  exact ⟨rfl, rfl, rfl⟩

/-- C8 witness: the amended statement at the degenerate concrete
input. -/
theorem C8_witness :
    (mosaic_rasters [zeroResSrc] "p" none .depth noFail).result =
      .error .zeroDivisionError ∧
    (mosaic_rasters [zeroResSrc] "p" none .depth noFail).failStage =
      some .dimensions ∧
    (mosaic_rasters [zeroResSrc] "p" none .depth noFail).created = false :=
  C8_degenerate_resolution zeroResSrc [] "p" none .depth noFail
    (by decide) (by decide) (Or.inl rfl)

/-- C9 counterexample: an error while reading a sub-window does not
terminate the run with a typed error — it is caught, the source is
skipped, and the run still succeeds; the skipped source's valid data is
silently missing from the output (the no-failure run shows the value
that was lost). -/
theorem C9_counterexample :
    (mosaic_rasters [testSrc 0 1 (some 0) 5] "out" none .depth readFailOracle).result
        = .ok "out" ∧
    (mosaic_rasters [testSrc 0 1 (some 0) 5] "out" none .depth
        readFailOracle).content 0 0 = outNodata .depth ∧
    (mosaic_rasters [testSrc 0 1 (some 0) 5] "out" none .depth
        noFail).content 0 0 = 5 := by
  refine ⟨rfl, ?_, ?_⟩ <;> decide

/-- C9 (amended): validation errors are surfaced immediately, but an
error while reading a sub-window from an input raster is caught and the
input is skipped for that block; regardless of which reads fail, the
run continues and succeeds whenever writes and the clip source do not
fail. -/
theorem C9_read_errors_skipped (s0 : SrcRaster) (rest : List SrcRaster)
    (p : String) (fim : FimType) (clip : Option ClipSpec) (o : Oracle)
    (hcrs : ∀ s ∈ s0 :: rest, s.crs = s0.crs)
    (hres : ∀ s ∈ s0 :: rest, s.resX = s0.resX ∧ s.resY = s0.resY)
    (hrx : 0 < s0.resX) (hry : 0 < s0.resY)
    (hw : 1 ≤ s0.width) (hh : 1 ≤ s0.height)
    (hwf : ∀ i, o.writeFail i = false) (hcf : o.clipOpenFail = false) :
    (mosaic_rasters (s0 :: rest) p clip fim o).result = .ok p := by
  have hbase := mosaicNoClip_ok_result s0 rest p fim o hcrs hres hrx hry hw hh hwf
  unfold mosaic_rasters
  cases clip with
  | none => exact hbase
  | some g => simp [hbase, hcf]

/-- Floors are superadditive. -/
theorem floor_add_floor_le (a b : ℚ) : ⌊a⌋ + ⌊b⌋ ≤ ⌊a + b⌋ :=
  Int.le_floor.mpr (by push_cast
                       exact add_le_add (Int.floor_le a) (Int.floor_le b))

/-- The boundless read at an out-of-range index is the fill value, the
source's nodata sentinel — an invalid pixel. -/
theorem validAt_fill (s : SrcRaster) (nd : ℚ) (hnd : s.nodata = some nd)
    (rowOff colOff i j : ℤ)
    (hout : ¬(0 ≤ rowOff + i ∧ rowOff + i < s.height ∧
              0 ≤ colOff + j ∧ colOff + j < s.width)) :
    validAt s (readAt s rowOff colOff i j) = false := by
  unfold readAt validAt
  rw [if_neg hout, hnd]
  simp

/-- One-dimensional core of the touching-extent argument: when the
source interval `[o, o + n·ρ]` and the window interval `[u, v]` have a
zero-width (or empty) intersection but the window is nonempty, every
rounded window column `⌊(u-o)/ρ⌋ + j`, `0 ≤ j < ⌊(v-u)/ρ⌋`, lies
outside the source's index range `[0, n)`. -/
theorem axis_no_overlap (o ρ : ℚ) (n : ℤ) (u v : ℚ) (hρ : 0 < ρ)
    (hpos : 0 < (v - u) / ρ)
    (ht : min (o + n * ρ) v ≤ max o u) :
    ∀ j : ℤ, 0 ≤ j → j < ⌊(v - u) / ρ⌋ →
      ⌊(u - o) / ρ⌋ + j < 0 ∨ n ≤ ⌊(u - o) / ρ⌋ + j := by
  intro j hj0 hjw
  rcases min_le_iff.mp ht with h | h
  · rcases le_max_iff.mp h with h | h
    · -- degenerate source: n·ρ ≤ 0, so n ≤ 0 and any index ≥ 0 is out
      have hn : n ≤ 0 := by
        by_contra hc
        push_neg at hc
        have : (0:ℚ) < n * ρ := mul_pos (by exact_mod_cast hc) hρ
        linarith
      rcases lt_or_le (⌊(u - o) / ρ⌋ + j) 0 with hlt | hge
      · exact Or.inl hlt
      · exact Or.inr (le_trans hn hge)
    · -- source entirely left of (or touching) the window
      have hc0 : n ≤ ⌊(u - o) / ρ⌋ := by
        apply Int.le_floor.mpr
        rw [le_div_iff₀ hρ]
        linarith
      exact Or.inr (le_trans hc0 (by linarith))
  · rcases le_max_iff.mp h with h | h
    · -- window entirely left of (or touching) the source
      refine Or.inl ?_
      have h1 : ⌊(u - o) / ρ⌋ + ⌊(v - u) / ρ⌋ ≤ ⌊(u - o) / ρ + (v - u) / ρ⌋ :=
        floor_add_floor_le _ _
      have h2 : (u - o) / ρ + (v - u) / ρ = (v - o) / ρ := by ring
      have h3 : (v - o) / ρ ≤ 0 :=
        div_nonpos_iff.mpr (Or.inr ⟨by linarith, le_of_lt hρ⟩)
      have h4 : ⌊(v - o) / ρ⌋ ≤ 0 := by
        calc ⌊(v - o) / ρ⌋ ≤ ⌊(0:ℚ)⌋ := Int.floor_le_floor h3
        _ = 0 := Int.floor_zero
      rw [h2] at h1
      omega
    · -- empty window contradicts the positive fractional width
      exfalso
      have h1 : v - u ≤ 0 := by linarith
      have h2 : (v - u) / ρ ≤ 0 := div_nonpos_iff.mpr (Or.inr ⟨h1, le_of_lt hρ⟩)
      linarith

/-- C3 (amended): an input raster that declares a nodata sentinel and
whose extent only touches the block's georeferenced bounds (zero-area
intersection, shared edge allowed) contributes no pixel data to the
block: the per-source step of the compositor leaves the block state
unchanged.  (The fractional-window guard of line 152 never fires for a
nonempty block; the input is neutralized because its boundless read
returns only the nodata fill, so no valid pixel exists.) -/
theorem C3_touching_contributes_nothing (s : SrcRaster) (fim : FimType)
    (nodata : ℚ) (bw : BlockWin) (b : GeoBounds) (fails : Bool)
    (st : (ℤ → ℤ → ℚ) × Bool) (nd : ℚ) (hnd : s.nodata = some nd)
    (hrx : 0 < s.resX) (hry : 0 < s.resY)
    (htouch : min s.rightEdge b.right ≤ max s.left b.left ∨
              min s.top b.top ≤ max s.bottomEdge b.bottom) :
    stepSrc fim nodata bw b fails s st = st := by
  unfold stepSrc srcWindowF
  dsimp only
  split
  · rfl
  · next hg2 =>
    split
    · rfl
    · next hg3 =>
      split
      · rfl
      · split
        · rfl
        · split
          · -- the any-valid branch is impossible for a touching source
            exfalso
            next hany =>
            rw [not_or, not_le, not_le] at hg3
            obtain ⟨hwpos, hhpos⟩ := hg3
            have hinv : ∀ (i j : ℤ), 0 ≤ i → i < ⌊(b.top - b.bottom) / s.resY⌋ →
                0 ≤ j → j < ⌊(b.right - b.left) / s.resX⌋ →
                validAt s (readAt s ⌊(s.top - b.top) / s.resY⌋
                  ⌊(b.left - s.left) / s.resX⌋ i j) = false := by
              intro i j hi0 hih hj0 hjw
              rcases htouch with ht | ht
              · -- horizontal touching: the column index is out of range
                have hout := axis_no_overlap s.left s.resX s.width b.left b.right
                  hrx hwpos (by
                    unfold SrcRaster.rightEdge at ht
                    exact ht) j hj0 hjw
                apply validAt_fill s nd hnd
                intro hc
                rcases hout with hout | hout
                · exact absurd hc.2.2.1 (by omega)
                · exact absurd hc.2.2.2 (by omega)
              · -- vertical touching: the row index is out of range
                have htv : min (-s.top + s.height * s.resY) (-b.bottom) ≤
                    max (-s.top) (-b.top) := by
                  unfold SrcRaster.bottomEdge at ht
                  rcases min_le_iff.mp ht with h | h <;>
                    rcases le_max_iff.mp h with h2 | h2
                  · exact min_le_iff.mpr (Or.inl (le_max_iff.mpr (Or.inl (by linarith))))
                  · exact min_le_iff.mpr (Or.inr (le_max_iff.mpr (Or.inl (by linarith))))
                  · exact min_le_iff.mpr (Or.inl (le_max_iff.mpr (Or.inr (by linarith))))
                  · exact min_le_iff.mpr (Or.inr (le_max_iff.mpr (Or.inr (by linarith))))
                have hout := axis_no_overlap (-s.top) s.resY s.height (-b.top)
                  (-b.bottom) hry
                  (by
                    have he : (-b.bottom - -b.top) = b.top - b.bottom := by ring
                    rw [he]
                    exact hhpos) htv i hi0
                  (by
                    have he : (-b.bottom - -b.top) = b.top - b.bottom := by ring
                    rw [he]
                    exact hih)
                have he2 : (-b.top - -s.top) = s.top - b.top := by ring
                rw [he2] at hout
                apply validAt_fill s nd hnd
                intro hc
                rcases hout with hout | hout
                · exact absurd hc.1 (by omega)
                · exact absurd hc.2.1 (by omega)
            rw [anyValid, List.any_eq_true] at hany
            obtain ⟨i, hi, hany2⟩ := hany
            rw [List.any_eq_true] at hany2
            obtain ⟨j, hj, hval⟩ := hany2
            rw [List.mem_range] at hi hj
            have := hinv (i : ℤ) (j : ℤ) (Int.ofNat_nonneg i)
              (by omega) (Int.ofNat_nonneg j) (by omega)
            rw [this] at hval
            exact Bool.false_ne_true hval
          · rfl

/-- C3 witness: a one-pixel source (nodata sentinel 0) with extent
`[-1,0]×[0,1]` sharing the edge `x = 0` with the block `[0,1]×[0,1]`
leaves the block state untouched. -/
theorem C3_witness :
    stepSrc .depth (-9999) ⟨0, 0, 1, 1⟩ ⟨0, 0, 1, 1⟩ false
      (testSrc (-1) 1 (some 0) 7) (fun _ _ => -9999, false) =
      (fun _ _ => -9999, false) :=
  C3_touching_contributes_nothing (testSrc (-1) 1 (some 0) 7) .depth (-9999)
    ⟨0, 0, 1, 1⟩ ⟨0, 0, 1, 1⟩ false (fun _ _ => -9999, false) 0 rfl
    (by norm_num [testSrc]) (by norm_num [testSrc])
    (Or.inl (by norm_num [testSrc, SrcRaster.rightEdge]))

/-- C3 counterexample: an input raster that declares no nodata sentinel
and whose extent only touches the block (shared edge `x = 0`,
zero-area intersection) still contributes pixel data: the boundless
read fills with 0, every fill pixel counts as valid, and the block
buffer cell changes from the nodata sentinel to 0. -/
theorem C3_counterexample :
    min (testSrc (-1) 1 none 7).rightEdge (1:ℚ) ≤
      max (testSrc (-1) 1 none 7).left 0 ∧
    (stepSrc .depth (-9999) ⟨0, 0, 1, 1⟩ ⟨0, 0, 1, 1⟩ false
      (testSrc (-1) 1 none 7) (fun _ _ => -9999, false)).1 0 0 = 0 ∧
    ((0:ℚ) ≠ -9999) :=
  ⟨by decide, by decide, by decide⟩

/-- A pixel value legal in a finished extent-mode raster. -/
def extentVal (x : ℚ) : Prop := x = 0 ∨ x = 1 ∨ x = 255

/-- The extent-mode band transform only produces 0 or 1. -/
theorem transformAt_extent (valid : Bool) (v : ℚ) :
    transformAt .extent valid v = 0 ∨ transformAt .extent valid v = 1 := by
  unfold transformAt
  dsimp only
  split
  · exact Or.inr rfl
  · exact Or.inl rfl

/-- The compositing update keeps extent-legal buffers extent-legal when
the candidate is 0 or 1. -/
theorem updatePixel_extent (valid : Bool) (cand buf : ℚ)
    (hc : cand = 0 ∨ cand = 1) (hb : extentVal buf) :
    extentVal (updatePixel 255 valid cand buf) := by
  unfold updatePixel extentVal
  rcases hc with hc | hc <;> rcases hb with hb | hb | hb <;>
    subst hc <;> subst hb <;> split <;> simp_all

/-- The per-source step keeps an extent-legal block state
extent-legal. -/
theorem stepSrc_extent (nodata : ℚ) (hnod : nodata = 255) (bw : BlockWin)
    (b : GeoBounds) (fails : Bool) (s : SrcRaster)
    (st : (ℤ → ℤ → ℚ) × Bool) (hst : ∀ i j, extentVal (st.1 i j)) :
    ∀ i j, extentVal ((stepSrc .extent nodata bw b fails s st).1 i j) := by
  intro i j
  unfold stepSrc
  dsimp only
  split
  · exact hst i j
  · split
    · exact hst i j
    · split
      · exact hst i j
      · split
        · exact hst i j
        · split
          · dsimp only
            split
            · subst hnod
              exact updatePixel_extent _ _ _ (transformAt_extent _ _) (hst i j)
            · exact hst i j
          · exact hst i j

/-- The whole per-block source fold keeps the block state
extent-legal. -/
theorem foldSrc_extent (nodata : ℚ) (hnod : nodata = 255) (bw : BlockWin)
    (b : GeoBounds) (o : Oracle) (blkIdx : ℕ) :
    ∀ (l : List (ℕ × SrcRaster)) (st : (ℤ → ℤ → ℚ) × Bool),
      (∀ i j, extentVal (st.1 i j)) →
      ∀ i j, extentVal ((l.foldl
        (fun st p => stepSrc .extent nodata bw b (o.readFail blkIdx p.1) p.2 st)
        st).1 i j)
  | [], _, hst => hst
  | p :: l, st, hst =>
    foldSrc_extent nodata hnod bw b o blkIdx l _
      (stepSrc_extent nodata hnod bw b (o.readFail blkIdx p.1) p.2 st hst)

/-- The extent-mode re-binarization keeps extent-legal buffers
extent-legal. -/
theorem clampExtent_extent (buf : ℤ → ℤ → ℚ)
    (hb : ∀ i j, extentVal (buf i j)) :
    ∀ i j, extentVal (clampExtent 255 buf i j) := by
  intro i j
  unfold clampExtent
  split
  · exact Or.inr (Or.inl rfl)
  · exact hb i j

/-- Every pixel of a processed block buffer is extent-legal. -/
theorem processWindow_extent (srcs : List SrcRaster) (o : Oracle)
    (blkIdx : ℕ) (gLeft gTop gResX gResY : ℚ) (bw : BlockWin) :
    ∀ i j, extentVal
      (processWindow .extent (outNodata .extent) srcs o blkIdx
        gLeft gTop gResX gResY bw i j) := by
  intro i j
  unfold processWindow
  have hfold := foldSrc_extent (outNodata .extent) rfl bw
    (blockBounds gLeft gTop gResX gResY bw) o blkIdx
    (List.zip (List.range srcs.length) srcs)
    (fun _ _ => outNodata .extent, false)
    (fun _ _ => Or.inr (Or.inr rfl))
  split
  · exact clampExtent_extent _ (fun i j => hfold i j) i j
  · exact hfold i j

/-- The block loop keeps an extent-legal destination extent-legal. -/
theorem writeBlocks_extent (srcs : List SrcRaster) (o : Oracle)
    (gLeft gTop gResX gResY : ℚ) :
    ∀ (l : List BlockWin) (idx : ℕ) (content : ℤ → ℤ → ℚ),
      (∀ r c, extentVal (content r c)) →
      ∀ r c, extentVal ((writeBlocks .extent (outNodata .extent) srcs o
        gLeft gTop gResX gResY l idx content).1 r c)
  | [], _, _, hc => hc
  | bw :: l, idx, content, hc => by
    unfold writeBlocks
    split
    · exact hc
    · refine writeBlocks_extent srcs o gLeft gTop gResX gResY l (idx + 1) _ ?_
      intro r c
      unfold writeWin
      split
      · exact processWindow_extent srcs o idx gLeft gTop gResX gResY bw _ _
      · exact hc r c

/-- Every pixel of the core pipeline's destination is extent-legal in
extent mode. -/
theorem mosaicNoClip_extent (srcs : List SrcRaster) (p : String)
    (o : Oracle) (r c : ℤ) :
    extentVal ((mosaicNoClip srcs p .extent o).content r c) := by
  cases srcs with
  | nil => exact Or.inl rfl
  | cons s0 rest =>
    unfold mosaicNoClip
    dsimp only
    split
    · exact Or.inl rfl
    · split
      · exact Or.inl rfl
      · rcases pyDiv (unionRight s0 rest - unionLeft s0 rest) s0.resX with e | qw
        · exact Or.inl rfl
        · dsimp only
          rcases pyDiv (unionTop s0 rest - unionBottom s0 rest) s0.resY with e | qh
          · exact Or.inl rfl
          · dsimp only
            rcases pyDiv (unionRight s0 rest - unionLeft s0 rest)
              ((pyInt (qw + 1/2) : ℤ) : ℚ) with e | gx
            · exact Or.inl rfl
            · dsimp only
              rcases pyDiv (unionTop s0 rest - unionBottom s0 rest)
                ((pyInt (qh + 1/2) : ℤ) : ℚ) with e | gy
              · exact Or.inl rfl
              · dsimp only
                have hw := writeBlocks_extent (s0 :: rest) o
                  (unionLeft s0 rest) (unionTop s0 rest) gx gy
                  (blockWindows (pyInt (qh + 1/2)) (pyInt (qw + 1/2))) 0
                  (fun _ _ => outNodata .extent)
                  (fun _ _ => Or.inr (Or.inr rfl))
                rcases hsnd : (writeBlocks .extent (outNodata .extent) (s0 :: rest) o
                    (unionLeft s0 rest) (unionTop s0 rest) gx gy
                    (blockWindows (pyInt (qh + 1/2)) (pyInt (qw + 1/2))) 0
                    fun _ _ => outNodata .extent).2 with _ | e2
                all_goals exact hw r c

/-- C10: in extent mode every pixel of the finished output raster is 0,
1, or the nodata sentinel 255, for any inputs, oracle, and clip
geometry — the transformed candidates are all 0/1, the compositor and
the re-binarization of lines 213-216 preserve the invariant, and the
clip stage only introduces the sentinel. -/
theorem C10_extent_values (srcs : List SrcRaster) (p : String)
    (clip : Option ClipSpec) (o : Oracle) (r c : ℤ) :
    (mosaic_rasters srcs p clip .extent o).content r c = 0 ∨
    (mosaic_rasters srcs p clip .extent o).content r c = 1 ∨
    (mosaic_rasters srcs p clip .extent o).content r c = 255 := by
  have hbase := mosaicNoClip_extent srcs p o r c
  unfold mosaic_rasters
  cases clip with
  | none => exact hbase
  | some g =>
    cases hr : (mosaicNoClip srcs p .extent o).result with
    | error e => simpa only [hr] using hbase
    | ok q =>
      simp only [hr]
      by_cases hcf : o.clipOpenFail
      · simp only [hcf, if_true]
        exact hbase
      · simp only [hcf, if_false]
        change extentVal (clipContent g (outNodata .extent)
          (mosaicNoClip srcs p .extent o).content r c)
        unfold clipContent
        split
        · exact hbase
        · exact Or.inr (Or.inr rfl)

/-- Normal form of the per-source step with no read failure: either the
source is skipped (its state-independent guard fails) or the buffer is
updated pixel-wise and the valid-data flag set. -/
theorem stepSrc_eq (fim : FimType) (nodata : ℚ) (bw : BlockWin) (b : GeoBounds)
    (s : SrcRaster) (st : (ℤ → ℤ → ℚ) × Bool) :
    stepSrc fim nodata bw b false s st =
      if srcActive bw b s then
        (fun i j =>
          if 0 ≤ i ∧ i < bw.h ∧ 0 ≤ j ∧ j < bw.w then
            updatePixel nodata (validAt s (readAt s (srcR0 s b) (srcC0 s b) i j))
              (transformAt fim (validAt s (readAt s (srcR0 s b) (srcC0 s b) i j))
                (readAt s (srcR0 s b) (srcC0 s b) i j))
              (st.1 i j)
          else st.1 i j, true)
      else st := by
  by_cases h1 : (srcWindowF s b).2.2.1 ≤ 0 ∨ (srcWindowF s b).2.2.2 ≤ 0
  · simp [stepSrc, srcActive, h1]
  · by_cases h2 : ⌊(srcWindowF s b).2.2.1⌋ ≤ 0 ∨ ⌊(srcWindowF s b).2.2.2⌋ ≤ 0
    · simp [stepSrc, srcActive, h1, h2]
    · by_cases h3 : ⌊(srcWindowF s b).2.2.2⌋ = bw.h ∧ ⌊(srcWindowF s b).2.2.1⌋ = bw.w
      · have hactive : srcActive bw b s ↔ anyValid s (srcR0 s b) (srcC0 s b)
            ⌊(srcWindowF s b).2.2.2⌋ ⌊(srcWindowF s b).2.2.1⌋ = true := by
          unfold srcActive
          constructor
          · rintro ⟨_, _, _, h⟩
            exact h
          · intro h
            exact ⟨h1, h2, h3, h⟩
        by_cases h4 : anyValid s (srcR0 s b) (srcC0 s b)
            ⌊(srcWindowF s b).2.2.2⌋ ⌊(srcWindowF s b).2.2.1⌋ = true
        · rw [if_pos (hactive.mpr h4)]
          simp only [stepSrc, srcR0, srcC0] at h4 ⊢
          rw [if_neg (by simp), if_neg h1, if_neg h2, if_neg (not_not_intro h3),
            if_pos h4]
        · rw [if_neg (fun ha => h4 (hactive.mp ha))]
          simp only [stepSrc, srcR0, srcC0] at h4 ⊢
          rw [if_neg (by simp), if_neg h1, if_neg h2, if_neg (not_not_intro h3),
            if_neg h4]
      · simp [stepSrc, srcActive, h1, h2, h3]

/-- The per-pixel compositing update is commutative as long as no valid
candidate equals the output nodata sentinel. -/
theorem updatePixel_comm (nodata : ℚ) (v1 v2 : Bool) (c1 c2 x : ℚ)
    (h1 : v1 = true → c1 ≠ nodata) (h2 : v2 = true → c2 ≠ nodata) :
    updatePixel nodata v2 c2 (updatePixel nodata v1 c1 x) =
      updatePixel nodata v1 c1 (updatePixel nodata v2 c2 x) := by
  unfold updatePixel
  cases v1 with
  | false => simp
  | true =>
    cases v2 with
    | false => simp
    | true =>
      simp only [if_true]
      by_cases hx : x = nodata
      · rw [if_pos hx, if_pos hx, if_neg (h1 rfl), if_neg (h2 rfl)]
        exact max_comm c1 c2
      · rw [if_neg hx, if_neg hx]
        have hm1 : max x c1 ≠ nodata := by
          rcases max_choice x c1 with hm | hm <;> rw [hm]
          · exact hx
          · exact h1 rfl
        have hm2 : max x c2 ≠ nodata := by
          rcases max_choice x c2 with hm | hm <;> rw [hm]
          · exact hx
          · exact h2 rfl
        rw [if_neg hm1, if_neg hm2, max_assoc, max_comm c1 c2, ← max_assoc]

/-- The three possible outcomes of a boundless read: a stored sample,
the source's nodata fill, or the zero fill of a source without a
sentinel. -/
theorem readAt_cases (s : SrcRaster) (r0 c0 i j : ℤ) :
    readAt s r0 c0 i j = s.data (r0 + i) (c0 + j) ∨
    (∃ nd, s.nodata = some nd ∧ readAt s r0 c0 i j = nd) ∨
    (s.nodata = none ∧ readAt s r0 c0 i j = 0) := by
  unfold readAt
  dsimp only
  split
  · exact Or.inl rfl
  · rcases hnd : s.nodata with _ | nd
    · exact Or.inr (Or.inr ⟨rfl, rfl⟩)
    · exact Or.inr (Or.inl ⟨nd, rfl, rfl⟩)

/-- A valid candidate value never equals the output nodata sentinel:
in depth mode because no sample equals −9999 (the fill is the source's
own sentinel, which is invalid), in extent mode because transformed
values are 0 or 1 while the sentinel is 255. -/
theorem candidate_ne_nodata (fim : FimType) (s : SrcRaster)
    (hval : fim = .depth → ∀ r c, s.data r c ≠ -9999) (r0 c0 i j : ℤ)
    (hv : validAt s (readAt s r0 c0 i j) = true) :
    transformAt fim (validAt s (readAt s r0 c0 i j)) (readAt s r0 c0 i j) ≠
      outNodata fim := by
  cases fim with
  | depth =>
    have hne : readAt s r0 c0 i j ≠ -9999 := by
      rcases readAt_cases s r0 c0 i j with h | ⟨nd, hnd, h⟩ | ⟨_, h⟩
      · rw [h]
        exact hval rfl _ _
      · exfalso
        rw [h] at hv
        unfold validAt at hv
        rw [hnd] at hv
        simp at hv
      · rw [h]
        norm_num
    exact hne
  | extent =>
    rcases transformAt_extent (validAt s (readAt s r0 c0 i j))
      (readAt s r0 c0 i j) with h | h <;> rw [h] <;> norm_num [outNodata]

/-- Per-source steps of the compositor commute when no valid candidate
equals the output nodata sentinel. -/
theorem stepSrc_comm (fim : FimType) (bw : BlockWin) (b : GeoBounds)
    (s1 s2 : SrcRaster) (st : (ℤ → ℤ → ℚ) × Bool)
    (hv1 : fim = .depth → ∀ r c, s1.data r c ≠ -9999)
    (hv2 : fim = .depth → ∀ r c, s2.data r c ≠ -9999) :
    stepSrc fim (outNodata fim) bw b false s2
        (stepSrc fim (outNodata fim) bw b false s1 st) =
      stepSrc fim (outNodata fim) bw b false s1
        (stepSrc fim (outNodata fim) bw b false s2 st) := by
  rw [stepSrc_eq, stepSrc_eq, stepSrc_eq, stepSrc_eq]
  by_cases a1 : srcActive bw b s1 <;> by_cases a2 : srcActive bw b s2 <;>
    simp only [a1, a2, if_true, if_false, if_pos, if_neg, not_false_iff]
  · -- both active
    refine Prod.ext ?_ rfl
    funext i j
    dsimp only
    by_cases hin : 0 ≤ i ∧ i < bw.h ∧ 0 ≤ j ∧ j < bw.w
    · rw [if_pos hin, if_pos hin, if_pos hin, if_pos hin]
      exact updatePixel_comm (outNodata fim) _ _ _ _ _
        (fun h => candidate_ne_nodata fim s1 hv1 _ _ i j h)
        (fun h => candidate_ne_nodata fim s2 hv2 _ _ i j h)
    · rw [if_neg hin, if_neg hin, if_neg hin, if_neg hin]

/-- Folding the per-source loop over index-source pairs with an oracle
that never fails a read is the plain fold over the sources. -/
theorem foldl_zip_noFail (fim : FimType) (nodata : ℚ) (bw : BlockWin)
    (b : GeoBounds) (o : Oracle) (blkIdx : ℕ)
    (ho : ∀ i, o.readFail blkIdx i = false) :
    ∀ (idxs : List ℕ) (l : List SrcRaster) (st : (ℤ → ℤ → ℚ) × Bool),
      (List.zip idxs l).foldl
          (fun st p => stepSrc fim nodata bw b (o.readFail blkIdx p.1) p.2 st) st =
        (l.take idxs.length).foldl (fun st s => stepSrc fim nodata bw b false s st) st
  | [], l, st => by simp
  | i :: idxs, [], st => by simp
  | i :: idxs, s :: l, st => by
    simp only [List.zip_cons_cons, List.foldl_cons, List.length_cons, List.take_succ_cons,
      ho i]
    exact foldl_zip_noFail fim nodata bw b o blkIdx ho idxs l _

/-- With an oracle that never fails a read, the processing of a block
does not depend on the oracle or on the block index. -/
theorem processWindow_noFail (fim : FimType) (nodata : ℚ)
    (srcs : List SrcRaster) (o : Oracle) (blkIdx : ℕ)
    (ho : ∀ bi i, o.readFail bi i = false) (gl gt gx gy : ℚ) (bw : BlockWin) :
    processWindow fim nodata srcs o blkIdx gl gt gx gy bw =
      processWindow fim nodata srcs noFail 0 gl gt gx gy bw := by
  unfold processWindow
  dsimp only
  rw [foldl_zip_noFail fim nodata bw _ o blkIdx (ho blkIdx),
    foldl_zip_noFail fim nodata bw _ noFail 0 (fun _ => rfl)]

/-- A pixel touched by no window of the list keeps its prior content
through the block loop, whether or not a write fails. -/
theorem writeBlocks_untouched (fim : FimType) (nodata : ℚ)
    (srcs : List SrcRaster) (o : Oracle) (gl gt gx gy : ℚ) (r c : ℤ) :
    ∀ (l : List BlockWin) (idx : ℕ) (content : ℤ → ℤ → ℚ),
      (∀ bw ∈ l, ¬ winContains bw r c) →
      (writeBlocks fim nodata srcs o gl gt gx gy l idx content).1 r c =
        content r c
  | [], _, _, _ => rfl
  | bw :: l, idx, content, hn => by
    unfold writeBlocks
    split
    · rfl
    · rw [writeBlocks_untouched fim nodata srcs o gl gt gx gy r c l (idx + 1) _
        (fun bw2 h2 => hn bw2 (List.mem_cons_of_mem _ h2))]
      unfold writeWin
      rw [if_neg (show ¬(bw.rowOff ≤ r ∧ r < bw.rowOff + bw.h ∧ bw.colOff ≤ c ∧
        c < bw.colOff + bw.w) from hn bw (List.mem_cons_self _ _))]

/-- The pixel value of the finished (no-write-failure) destination at a
pixel contained in exactly one window of the list is that window's
processed buffer value. -/
theorem writeBlocks_at (fim : FimType) (nodata : ℚ) (srcs : List SrcRaster)
    (o : Oracle) (ho : ∀ bi i, o.readFail bi i = false)
    (hwf : ∀ i, o.writeFail i = false) (gl gt gx gy : ℚ) (r c : ℤ)
    (bw0 : BlockWin) (hc0 : winContains bw0 r c) :
    ∀ (l : List BlockWin) (idx : ℕ) (content : ℤ → ℤ → ℚ),
      bw0 ∈ l → (∀ bw ∈ l, winContains bw r c → bw = bw0) →
      (writeBlocks fim nodata srcs o gl gt gx gy l idx content).1 r c =
        processWindow fim nodata srcs noFail 0 gl gt gx gy bw0
          (r - bw0.rowOff) (c - bw0.colOff)
  | [], _, _, hmem, _ => absurd hmem (List.not_mem_nil _)
  | bw :: l, idx, content, hmem, huniq => by
    unfold writeBlocks
    simp only [hwf idx, Bool.false_eq_true, if_false]
    by_cases hrest : ∀ bw2 ∈ l, ¬ winContains bw2 r c
    · rw [writeBlocks_untouched fim nodata srcs o gl gt gx gy r c l (idx + 1) _
        hrest]
      have hbw : bw = bw0 := by
        rcases List.mem_cons.mp hmem with h | h
        · exact h.symm
        · exact absurd hc0 (hrest bw0 h)
      subst hbw
      unfold writeWin
      rw [if_pos (show bw.rowOff ≤ r ∧ r < bw.rowOff + bw.h ∧ bw.colOff ≤ c ∧
          c < bw.colOff + bw.w from hc0),
        processWindow_noFail fim nodata srcs o idx ho]
    · push_neg at hrest
      obtain ⟨bw2, hbw2, hcont2⟩ := hrest
      have hbw0l : bw0 ∈ l := by
        rw [← huniq bw2 (List.mem_cons_of_mem _ hbw2) hcont2]
        exact hbw2
      exact writeBlocks_at fim nodata srcs o ho hwf gl gt gx gy r c bw0 hc0 l
        (idx + 1) _ hbw0l
        (fun bw3 h3 hc3 => huniq bw3 (List.mem_cons_of_mem _ h3) hc3)

/-- `int(n + 0.5)` on an exact nonnegative integer is that integer. -/
theorem pyInt_intCast_add_half (n : ℤ) (h : 0 ≤ n) :
    pyInt ((n : ℚ) + 1/2) = n := by
  have h0 : (0:ℚ) ≤ (n:ℚ) := by exact_mod_cast h
  unfold pyInt
  rw [if_pos (by linarith)]
  rw [Int.floor_eq_iff]
  constructor
  · linarith
  · linarith

/-- Shape of the members of the block-window list. -/
theorem blockWindows_mem_iff (H W : ℤ) (bw : BlockWin) :
    bw ∈ blockWindows H W ↔
      ∃ bi bj : ℕ, bi < tileCount H ∧ bj < tileCount W ∧
        bw = ⟨256 * bi, 256 * bj, min 256 (H - 256 * bi), min 256 (W - 256 * bj)⟩ := by
  unfold blockWindows
  simp only [List.mem_flatMap, List.mem_map, List.mem_range]
  constructor
  · rintro ⟨bi, hbi, bj, hbj, hbw⟩
    exact ⟨bi, bj, hbi, hbj, hbw.symm⟩
  · rintro ⟨bi, bj, hbi, hbj, hbw⟩
    exact ⟨bi, hbi, bj, hbj, hbw.symm⟩

/-- Every output pixel lies in exactly one block window, namely the
tile obtained by dividing its row and column by 256. -/
theorem blockWindows_unique (H W r c : ℤ) (hr0 : 0 ≤ r) (hrH : r < H)
    (hc0 : 0 ≤ c) (hcW : c < W) :
    ∃ bw0 ∈ blockWindows H W, winContains bw0 r c ∧
      ∀ bw ∈ blockWindows H W, winContains bw r c → bw = bw0 := by
  refine ⟨⟨256 * ((r.toNat / 256 : ℕ) : ℤ), 256 * ((c.toNat / 256 : ℕ) : ℤ),
    min 256 (H - 256 * ((r.toNat / 256 : ℕ) : ℤ)),
    min 256 (W - 256 * ((c.toNat / 256 : ℕ) : ℤ))⟩, ?_, ?_, ?_⟩
  · rw [blockWindows_mem_iff]
    refine ⟨r.toNat / 256, c.toNat / 256, ?_, ?_, rfl⟩
    · unfold tileCount
      omega
    · unfold tileCount
      omega
  · unfold winContains
    dsimp only
    omega
  · rintro ⟨ro, co, hh, ww⟩ hmem hcont
    rw [blockWindows_mem_iff] at hmem
    obtain ⟨bi, bj, hbi, hbj, hbw⟩ := hmem
    injection hbw with h1 h2 h3 h4
    subst h1
    subst h2
    subst h3
    subst h4
    unfold winContains at hcont
    dsimp only at hcont
    have hbieq : bi = r.toNat / 256 := by omega
    have hbjeq : bj = c.toNat / 256 := by omega
    rw [hbieq, hbjeq]

/-- Normal form of the core pipeline on a validation-passing input set
with no write failure: the full outcome record. -/
theorem mosaicNoClip_normal (s0 : SrcRaster) (rest : List SrcRaster)
    (p : String) (fim : FimType) (o : Oracle)
    (hcrs : ∀ s ∈ s0 :: rest, s.crs = s0.crs)
    (hres : ∀ s ∈ s0 :: rest, s.resX = s0.resX ∧ s.resY = s0.resY)
    (hrx : 0 < s0.resX) (hry : 0 < s0.resY)
    (hw : 1 ≤ s0.width) (hh : 1 ≤ s0.height)
    (hwf : ∀ i, o.writeFail i = false) :
    mosaicNoClip (s0 :: rest) p fim o =
      { result := .ok p, failStage := none, created := true, removed := false,
        srcsClosed := true,
        content := (writeBlocks fim (outNodata fim) (s0 :: rest) o
          (unionLeft s0 rest) (unionTop s0 rest)
          ((unionRight s0 rest - unionLeft s0 rest) / ((outWidth s0 rest : ℤ) : ℚ))
          ((unionTop s0 rest - unionBottom s0 rest) / ((outHeight s0 rest : ℤ) : ℚ))
          (blockWindows (outHeight s0 rest) (outWidth s0 rest)) 0
          (fun _ _ => outNodata fim)).1,
        bounds := ⟨unionLeft s0 rest, unionBottom s0 rest, unionRight s0 rest,
          unionTop s0 rest⟩,
        outW := outWidth s0 rest, outH := outHeight s0 rest } := by
  have hcall : ((s0 :: rest).all fun s => s.crs = s0.crs) = true :=
    List.all_eq_true.mpr fun s hs => decide_eq_true (hcrs s hs)
  have hrall : ((s0 :: rest).all fun s => s.resX = s0.resX ∧ s.resY = s0.resY) = true :=
    List.all_eq_true.mpr fun s hs => decide_eq_true (hres s hs)
  have hx : s0.resX ≠ 0 := ne_of_gt hrx
  have hy : s0.resY ≠ 0 := ne_of_gt hry
  have hW := outWidth_pos s0 rest hrx hw
  have hH := outHeight_pos s0 rest hry hh
  have hWQ : ((pyInt ((unionRight s0 rest - unionLeft s0 rest) / s0.resX + 1/2) : ℤ) : ℚ) ≠ 0 := by
    have h1 : (1:ℤ) ≤ pyInt ((unionRight s0 rest - unionLeft s0 rest) / s0.resX + 1/2) := hW
    simp only [ne_eq, Int.cast_eq_zero]
    omega
  have hHQ : ((pyInt ((unionTop s0 rest - unionBottom s0 rest) / s0.resY + 1/2) : ℤ) : ℚ) ≠ 0 := by
    have h1 : (1:ℤ) ≤ pyInt ((unionTop s0 rest - unionBottom s0 rest) / s0.resY + 1/2) := hH
    simp only [ne_eq, Int.cast_eq_zero]
    omega
  unfold mosaicNoClip
  dsimp only
  rw [if_neg (not_not_intro hcall), if_neg (not_not_intro hrall)]
  rw [pyDiv_ok _ _ hx]
  dsimp only
  rw [pyDiv_ok _ _ hy]
  dsimp only
  rw [pyDiv_ok _ _ hWQ]
  dsimp only
  rw [pyDiv_ok _ _ hHQ]
  dsimp only
  rw [writeBlocks_none _ _ _ _ _ _ _ _ hwf]
  exact rfl

/-- Floor of an integer plus one half. -/
theorem floor_intCast_add_half (m : ℤ) : ⌊(m : ℚ) + 1/2⌋ = m := by
  rw [Int.floor_eq_iff]
  constructor
  · linarith
  · linarith

/-- For a source on the common grid, the fractional window of a block's
bounds has integer offsets and exactly the block's shape. -/
theorem srcWindowF_aligned (s : SrcRaster) (L T : ℚ) (bw : BlockWin)
    (hrx : 0 < s.resX) (hry : 0 < s.resY) (kx my : ℤ)
    (hkx : s.left = L + kx * s.resX) (hmy : s.top = T - my * s.resY) :
    srcWindowF s (blockBounds L T s.resX s.resY bw) =
      (((bw.colOff - kx : ℤ) : ℚ), ((bw.rowOff - my : ℤ) : ℚ),
       ((bw.w : ℤ) : ℚ), ((bw.h : ℤ) : ℚ)) := by
  unfold srcWindowF blockBounds
  dsimp only
  rw [hkx, hmy]
  have hx := ne_of_gt hrx
  have hy := ne_of_gt hry
  refine Prod.ext ?_ (Prod.ext ?_ (Prod.ext ?_ ?_)) <;> dsimp only
  · rw [div_eq_iff hx]
    push_cast
    ring
  · rw [div_eq_iff hy]
    push_cast
    ring
  · rw [div_eq_iff hx]
    ring
  · rw [div_eq_iff hy]
    ring

/-- For a source on the common grid, the rounded window offsets are the
block offsets shifted by the source's grid position. -/
theorem srcR0_aligned (s : SrcRaster) (L T : ℚ) (bw : BlockWin)
    (hrx : 0 < s.resX) (hry : 0 < s.resY) (kx my : ℤ)
    (hkx : s.left = L + kx * s.resX) (hmy : s.top = T - my * s.resY) :
    srcR0 s (blockBounds L T s.resX s.resY bw) = bw.rowOff - my ∧
    srcC0 s (blockBounds L T s.resX s.resY bw) = bw.colOff - kx := by
  unfold srcR0 srcC0
  rw [srcWindowF_aligned s L T bw hrx hry kx my hkx hmy]
  exact ⟨Int.floor_intCast _, Int.floor_intCast _⟩

/-- For a source on the common grid, the spec's sample at an output
pixel is the source sample at the shifted index. -/
theorem specSample_aligned (s : SrcRaster) (L T : ℚ) (r c kx my : ℤ)
    (hrx : 0 < s.resX) (hry : 0 < s.resY)
    (hkx : s.left = L + kx * s.resX) (hmy : s.top = T - my * s.resY) :
    specSample s L T s.resX s.resY r c = s.data (r - my) (c - kx) := by
  unfold specSample
  have hx := ne_of_gt hrx
  have hy := ne_of_gt hry
  have h1 : (s.top - (T - ((r : ℚ) + 1/2) * s.resY)) / s.resY =
      ((r - my : ℤ) : ℚ) + 1/2 := by
    rw [hmy, div_eq_iff hy]
    push_cast
    ring
  have h2 : ((L + ((c : ℚ) + 1/2) * s.resX) - s.left) / s.resX =
      ((c - kx : ℤ) : ℚ) + 1/2 := by
    rw [hkx, div_eq_iff hx]
    push_cast
    ring
  rw [h1, h2, floor_intCast_add_half, floor_intCast_add_half]

/-- For a source on the common grid, covering the output pixel's cell
is the same as the shifted index being inside the source's pixel
grid. -/
theorem coversCell_aligned (s : SrcRaster) (L T : ℚ) (r c kx my : ℤ)
    (hrx : 0 < s.resX) (hry : 0 < s.resY)
    (hkx : s.left = L + kx * s.resX) (hmy : s.top = T - my * s.resY) :
    coversCell s L T s.resX s.resY r c ↔
      0 ≤ r - my ∧ r - my < s.height ∧ 0 ≤ c - kx ∧ c - kx < s.width := by
  unfold coversCell SrcRaster.rightEdge SrcRaster.bottomEdge
  rw [hkx, hmy]
  constructor
  · rintro ⟨h1, h2, h3, h4⟩
    refine ⟨?_, ?_, ?_, ?_⟩
    · have hq : (my : ℚ) * s.resY ≤ (r : ℚ) * s.resY := by linarith
      have := le_of_mul_le_mul_right hq hry
      have hmr : my ≤ r := by exact_mod_cast this
      omega
    · have hq : ((r : ℚ) + 1) * s.resY ≤ ((my : ℚ) + s.height) * s.resY := by
        linarith
      have := le_of_mul_le_mul_right hq hry
      have hmr : (r : ℚ) + 1 ≤ (my : ℚ) + s.height := this
      have : r + 1 ≤ my + s.height := by exact_mod_cast hmr
      omega
    · have hq : (kx : ℚ) * s.resX ≤ (c : ℚ) * s.resX := by linarith
      have := le_of_mul_le_mul_right hq hrx
      have hkc : kx ≤ c := by exact_mod_cast this
      omega
    · have hq : ((c : ℚ) + 1) * s.resX ≤ ((kx : ℚ) + s.width) * s.resX := by
        linarith
      have := le_of_mul_le_mul_right hq hrx
      have : c + 1 ≤ kx + s.width := by exact_mod_cast this
      omega
  · rintro ⟨h1, h2, h3, h4⟩
    have hmr : (my : ℚ) ≤ (r : ℚ) := by exact_mod_cast (by omega : my ≤ r)
    have hrh : (r : ℚ) + 1 ≤ (my : ℚ) + s.height := by
      exact_mod_cast (by omega : r + 1 ≤ my + s.height)
    have hkc : (kx : ℚ) ≤ (c : ℚ) := by exact_mod_cast (by omega : kx ≤ c)
    have hcw : (c : ℚ) + 1 ≤ (kx : ℚ) + s.width := by
      exact_mod_cast (by omega : c + 1 ≤ kx + s.width)
    refine ⟨?_, ?_, ?_, ?_⟩
    · nlinarith
    · nlinarith
    · nlinarith
    · nlinarith

/-- Pixel-level view of the per-source step when the source window has
exactly the block's shape: the buffer cell receives the compositing
update for that source's read. -/
theorem stepSrc_pixel (fim : FimType) (nodata : ℚ) (bw : BlockWin)
    (b : GeoBounds) (s : SrcRaster) (st : (ℤ → ℤ → ℚ) × Bool) (i j : ℤ)
    (hwf : (srcWindowF s b).2.2.1 = ((bw.w : ℤ) : ℚ))
    (hhf : (srcWindowF s b).2.2.2 = ((bw.h : ℤ) : ℚ))
    (hbh : 0 < bw.h) (hbww : 0 < bw.w)
    (hin : 0 ≤ i ∧ i < bw.h ∧ 0 ≤ j ∧ j < bw.w) :
    (stepSrc fim nodata bw b false s st).1 i j =
      updatePixel nodata (validAt s (readAt s (srcR0 s b) (srcC0 s b) i j))
        (transformAt fim (validAt s (readAt s (srcR0 s b) (srcC0 s b) i j))
          (readAt s (srcR0 s b) (srcC0 s b) i j)) (st.1 i j) := by
  rw [stepSrc_eq]
  by_cases ha : srcActive bw b s
  · rw [if_pos ha]
    dsimp only
    rw [if_pos hin]
  · rw [if_neg ha]
    have hval : validAt s (readAt s (srcR0 s b) (srcC0 s b) i j) = false := by
      by_contra hcon
      rw [Bool.not_eq_false] at hcon
      apply ha
      unfold srcActive
      rw [hwf, hhf, Int.floor_intCast, Int.floor_intCast]
      refine ⟨?_, ?_, ⟨rfl, rfl⟩, ?_⟩
      · push_neg
        constructor
        · exact_mod_cast hbww
        · exact_mod_cast hbh
      · push_neg
        omega
      · unfold anyValid
        rw [List.any_eq_true]
        refine ⟨i.toNat, ?_, ?_⟩
        · rw [List.mem_range]
          omega
        · rw [List.any_eq_true]
          refine ⟨j.toNat, ?_, ?_⟩
          · rw [List.mem_range]
            omega
          · rw [Int.toNat_of_nonneg hin.1, Int.toNat_of_nonneg hin.2.2.1]
            exact hcon
    unfold updatePixel
    rw [hval]
    simp

/-- Pixel-level view of the whole per-source fold. -/
theorem foldSrc_pixel (fim : FimType) (nodata : ℚ) (bw : BlockWin)
    (b : GeoBounds) (i j : ℤ) (hbh : 0 < bw.h) (hbww : 0 < bw.w)
    (hin : 0 ≤ i ∧ i < bw.h ∧ 0 ≤ j ∧ j < bw.w) :
    ∀ (l : List SrcRaster),
      (∀ s ∈ l, (srcWindowF s b).2.2.1 = ((bw.w : ℤ) : ℚ) ∧
        (srcWindowF s b).2.2.2 = ((bw.h : ℤ) : ℚ)) →
      ∀ (st : (ℤ → ℤ → ℚ) × Bool),
      (l.foldl (fun st s => stepSrc fim nodata bw b false s st) st).1 i j =
        l.foldl (fun v s => updatePixel nodata
          (validAt s (readAt s (srcR0 s b) (srcC0 s b) i j))
          (transformAt fim (validAt s (readAt s (srcR0 s b) (srcC0 s b) i j))
            (readAt s (srcR0 s b) (srcC0 s b) i j)) v) (st.1 i j)
  | [], _, st => rfl
  | s :: l, hshape, st => by
    simp only [List.foldl_cons]
    rw [foldSrc_pixel fim nodata bw b i j hbh hbww hin l
      (fun s2 h2 => hshape s2 (List.mem_cons_of_mem _ h2)) _]
    rw [stepSrc_pixel fim nodata bw b s st i j
      (hshape s (List.mem_cons_self _ _)).1
      (hshape s (List.mem_cons_self _ _)).2 hbh hbww hin]

/-- Folding compositing updates from a non-nodata accumulator is the
running maximum over the valid candidates. -/
theorem foldl_updatePixel_ne {α : Type} (nodata : ℚ) (F : α → Bool) (G : α → ℚ) :
    ∀ (l : List α) (a : ℚ),
      (∀ s ∈ l, F s = true → G s ≠ nodata) → a ≠ nodata →
      l.foldl (fun v s => updatePixel nodata (F s) (G s) v) a =
        (l.filterMap fun s => if F s = true then some (G s) else none).foldl max a
  | [], _, _, _ => rfl
  | x :: l, a, hne, ha => by
    have htail : ∀ s ∈ l, F s = true → G s ≠ nodata :=
      fun s hs => hne s (List.mem_cons_of_mem _ hs)
    simp only [List.foldl_cons, List.filterMap_cons]
    cases hv : F x with
    | false =>
      rw [show updatePixel nodata false (G x) a = a from by unfold updatePixel; simp]
      rw [show (if false = true then some (G x) else none) = (none : Option ℚ) from rfl]
      exact foldl_updatePixel_ne nodata F G l a htail ha
    | true =>
      have hx : G x ≠ nodata := hne x (List.mem_cons_self _ _) hv
      rw [show updatePixel nodata true (G x) a = max a (G x) from by
        unfold updatePixel
        rw [if_pos rfl, if_neg ha]]
      rw [show (if true = true then some (G x) else none) = some (G x) from rfl]
      have hmax : max a (G x) ≠ nodata := by
        rcases max_choice a (G x) with hm | hm <;> rw [hm]
        · exact ha
        · exact hx
      exact foldl_updatePixel_ne nodata F G l (max a (G x)) htail hmax

/-- The compositing fold from a nodata-initialized buffer cell computes
the maximum valid candidate, or nodata when there is none. -/
theorem foldl_updatePixel_max {α : Type} (nodata : ℚ) (F : α → Bool) (G : α → ℚ) :
    ∀ (l : List α),
      (∀ s ∈ l, F s = true → G s ≠ nodata) →
      l.foldl (fun v s => updatePixel nodata (F s) (G s) v) nodata =
        specMaxValue (l.filterMap fun s => if F s = true then some (G s) else none)
          nodata
  | [], _ => rfl
  | x :: l, hne => by
    have htail : ∀ s ∈ l, F s = true → G s ≠ nodata :=
      fun s hs => hne s (List.mem_cons_of_mem _ hs)
    simp only [List.foldl_cons, List.filterMap_cons]
    cases hv : F x with
    | false =>
      rw [show updatePixel nodata false (G x) nodata = nodata from by
        unfold updatePixel
        simp]
      rw [show (if false = true then some (G x) else none) = (none : Option ℚ) from rfl]
      exact foldl_updatePixel_max nodata F G l htail
    | true =>
      have hx : G x ≠ nodata := hne x (List.mem_cons_self _ _) hv
      rw [show updatePixel nodata true (G x) nodata = G x from by
        unfold updatePixel
        rw [if_pos rfl, if_pos rfl]]
      rw [show (if true = true then some (G x) else none) = some (G x) from rfl]
      rw [foldl_updatePixel_ne nodata F G l (G x) htail hx]
      rfl

/-- `filterMap` only depends on the function's values on the list. -/
theorem filterMap_congr_mem {α β : Type} (f g : α → Option β) :
    ∀ (l : List α), (∀ x ∈ l, f x = g x) → l.filterMap f = l.filterMap g
  | [], _ => rfl
  | x :: l, h => by
    simp only [List.filterMap_cons, h x (List.mem_cons_self _ _)]
    rw [filterMap_congr_mem f g l (fun y hy => h y (List.mem_cons_of_mem _ hy))]

/-- In depth mode the band transform passes the value through. -/
theorem transformAt_depth (b : Bool) (v : ℚ) : transformAt .depth b v = v := rfl

/-- A boundless read inside the dataset returns the stored sample. -/
theorem readAt_in (s : SrcRaster) (r0 c0 i j : ℤ)
    (h : 0 ≤ r0 + i ∧ r0 + i < s.height ∧ 0 ≤ c0 + j ∧ c0 + j < s.width) :
    readAt s r0 c0 i j = s.data (r0 + i) (c0 + j) := by
  unfold readAt
  rw [if_pos h]

/-- A boundless read outside the dataset returns the nodata fill. -/
theorem readAt_out (s : SrcRaster) (r0 c0 i j : ℤ) (nd : ℚ)
    (hnd : s.nodata = some nd)
    (h : ¬(0 ≤ r0 + i ∧ r0 + i < s.height ∧ 0 ≤ c0 + j ∧ c0 + j < s.width)) :
    readAt s r0 c0 i j = nd := by
  unfold readAt
  rw [if_neg h, hnd]

/-- Members of the block-window list of a nonempty grid are nonempty
windows inside the grid. -/
theorem blockWindows_pos (H W : ℤ) (bw : BlockWin)
    (hmem : bw ∈ blockWindows H W) (hH : 1 ≤ H) (hW : 1 ≤ W) :
    0 < bw.h ∧ 0 < bw.w := by
  rw [blockWindows_mem_iff] at hmem
  obtain ⟨bi, bj, hbi, hbj, rfl⟩ := hmem
  unfold tileCount at hbi hbj
  dsimp only
  omega

/-- Pixel-level view of depth-mode block processing with the
no-failure oracle. -/
theorem processWindow_depth_pixel (nodata : ℚ) (srcs : List SrcRaster)
    (gl gt gx gy : ℚ) (bw : BlockWin) (i j : ℤ) :
    processWindow .depth nodata srcs noFail 0 gl gt gx gy bw i j =
      (srcs.foldl
        (fun st s => stepSrc .depth nodata bw (blockBounds gl gt gx gy bw) false s st)
        (fun _ _ => nodata, false)).1 i j := by
  unfold processWindow
  rw [foldl_zip_noFail .depth nodata bw _ noFail 0 (fun _ => rfl)]
  rw [if_neg (by simp)]
  simp only [List.length_range, List.take_length]

/-- The contribution entry of one grid-aligned source at one output
pixel agrees with the spec's covering-and-valid entry. -/
theorem specEntry_eq (s : SrcRaster) (L T : ℚ) (bw : BlockWin)
    (r c i j kx my : ℤ) (nd : ℚ)
    (hrx : 0 < s.resX) (hry : 0 < s.resY)
    (hkx : s.left = L + kx * s.resX) (hmy : s.top = T - my * s.resY)
    (hnd : s.nodata = some nd)
    (hi : r = bw.rowOff + i) (hj : c = bw.colOff + j) :
    (if coversCell s L T s.resX s.resY r c ∧
        validAt s (specSample s L T s.resX s.resY r c)
     then some (specSample s L T s.resX s.resY r c) else none) =
    (if validAt s (readAt s (srcR0 s (blockBounds L T s.resX s.resY bw))
        (srcC0 s (blockBounds L T s.resX s.resY bw)) i j) = true
     then some (readAt s (srcR0 s (blockBounds L T s.resX s.resY bw))
        (srcC0 s (blockBounds L T s.resX s.resY bw)) i j) else none) := by
  obtain ⟨hr0, hc0⟩ := srcR0_aligned s L T bw hrx hry kx my hkx hmy
  rw [hr0, hc0, specSample_aligned s L T r c kx my hrx hry hkx hmy]
  by_cases hcov : coversCell s L T s.resX s.resY r c
  · have hin := (coversCell_aligned s L T r c kx my hrx hry hkx hmy).mp hcov
    have hread : readAt s (bw.rowOff - my) (bw.colOff - kx) i j =
        s.data (r - my) (c - kx) := by
      rw [readAt_in s _ _ i j (by omega)]
      have e1 : bw.rowOff - my + i = r - my := by omega
      have e2 : bw.colOff - kx + j = c - kx := by omega
      rw [e1, e2]
    rw [hread]
    by_cases hv : validAt s (s.data (r - my) (c - kx)) = true
    · rw [if_pos ⟨hcov, hv⟩, if_pos hv]
    · rw [if_neg (fun hc => hv hc.2), if_neg hv]
  · have hread : readAt s (bw.rowOff - my) (bw.colOff - kx) i j = nd := by
      refine readAt_out s _ _ i j nd hnd ?_
      intro hcc
      exact hcov ((coversCell_aligned s L T r c kx my hrx hry hkx hmy).mpr
        (by omega))
    rw [hread]
    have hvf : validAt s nd = false := by
      unfold validAt
      rw [hnd]
      simp
    rw [if_neg (fun hc => hcov hc.1), if_neg (by rw [hvf]; simp)]

/-- The horizontal union span is at least one reference pixel wide. -/
theorem span_ge_resX (s0 : SrcRaster) (rest : List SrcRaster)
    (hrx : 0 < s0.resX) (hw : 1 ≤ s0.width) :
    s0.resX ≤ unionRight s0 rest - unionLeft s0 rest := by
  have h1 : unionLeft s0 rest ≤ s0.left := foldl_min_le_init _ _
  have h2 : s0.rightEdge ≤ unionRight s0 rest := le_foldl_max_init _ _
  have h3 : s0.left + s0.resX ≤ s0.rightEdge := by
    unfold SrcRaster.rightEdge
    have h4 : (1 : ℚ) * s0.resX ≤ (s0.width : ℚ) * s0.resX := by
      apply mul_le_mul_of_nonneg_right _ (le_of_lt hrx)
      exact_mod_cast hw
    linarith
  linarith

/-- The vertical union span is at least one reference pixel tall. -/
theorem span_ge_resY (s0 : SrcRaster) (rest : List SrcRaster)
    (hry : 0 < s0.resY) (hh : 1 ≤ s0.height) :
    s0.resY ≤ unionTop s0 rest - unionBottom s0 rest := by
  have h1 : unionBottom s0 rest ≤ s0.bottomEdge := foldl_min_le_init _ _
  have h2 : s0.top ≤ unionTop s0 rest := le_foldl_max_init _ _
  have h3 : s0.bottomEdge + s0.resY ≤ s0.top := by
    unfold SrcRaster.bottomEdge
    have h4 : (1 : ℚ) * s0.resY ≤ (s0.height : ℚ) * s0.resY := by
      apply mul_le_mul_of_nonneg_right _ (le_of_lt hry)
      exact_mod_cast hh
    linarith
  linarith

/-- A block buffer cell, after depth-mode compositing over grid-aligned
sources that declare nodata sentinels and hold no sample equal to the
output sentinel, equals the specification's per-pixel maximum. -/
theorem block_pixel_spec (L T ρx ρy : ℚ) (hrx : 0 < ρx) (hry : 0 < ρy)
    (bw : BlockWin) (hbh : 0 < bw.h) (hbww : 0 < bw.w) (r c : ℤ)
    (hcont : winContains bw r c) (srcs : List SrcRaster)
    (hsrc : ∀ s ∈ srcs, s.resX = ρx ∧ s.resY = ρy ∧
      (∃ kx : ℤ, s.left = L + kx * ρx) ∧ (∃ my : ℤ, s.top = T - my * ρy) ∧
      (∃ nd, s.nodata = some nd) ∧ ∀ r2 c2, s.data r2 c2 ≠ -9999) :
    processWindow .depth (outNodata .depth) srcs noFail 0 L T ρx ρy bw
      (r - bw.rowOff) (c - bw.colOff) =
    specPixelValue srcs L T ρx ρy (outNodata .depth) r c := by
  have hi : 0 ≤ r - bw.rowOff ∧ r - bw.rowOff < bw.h ∧
      0 ≤ c - bw.colOff ∧ c - bw.colOff < bw.w := by
    unfold winContains at hcont
    omega
  have hshape : ∀ s ∈ srcs,
      (srcWindowF s (blockBounds L T ρx ρy bw)).2.2.1 = ((bw.w : ℤ) : ℚ) ∧
      (srcWindowF s (blockBounds L T ρx ρy bw)).2.2.2 = ((bw.h : ℤ) : ℚ) := by
    intro s hs
    obtain ⟨hresx, hresy, ⟨kx, hkx⟩, ⟨my, hmy⟩, _, _⟩ := hsrc s hs
    subst hresx
    subst hresy
    rw [srcWindowF_aligned s L T bw hrx hry kx my hkx hmy]
    exact ⟨rfl, rfl⟩
  have hne : ∀ s ∈ srcs,
      validAt s (readAt s (srcR0 s (blockBounds L T ρx ρy bw))
        (srcC0 s (blockBounds L T ρx ρy bw)) (r - bw.rowOff) (c - bw.colOff)) = true →
      transformAt .depth (validAt s (readAt s (srcR0 s (blockBounds L T ρx ρy bw))
        (srcC0 s (blockBounds L T ρx ρy bw)) (r - bw.rowOff) (c - bw.colOff)))
        (readAt s (srcR0 s (blockBounds L T ρx ρy bw))
          (srcC0 s (blockBounds L T ρx ρy bw)) (r - bw.rowOff) (c - bw.colOff)) ≠
      outNodata .depth := by
    intro s hs hv
    exact candidate_ne_nodata .depth s (fun _ => (hsrc s hs).2.2.2.2.2) _ _ _ _ hv
  have hentry : ∀ s ∈ srcs,
      (if validAt s (readAt s (srcR0 s (blockBounds L T ρx ρy bw))
          (srcC0 s (blockBounds L T ρx ρy bw)) (r - bw.rowOff) (c - bw.colOff)) = true
       then some (transformAt .depth
          (validAt s (readAt s (srcR0 s (blockBounds L T ρx ρy bw))
            (srcC0 s (blockBounds L T ρx ρy bw)) (r - bw.rowOff) (c - bw.colOff)))
          (readAt s (srcR0 s (blockBounds L T ρx ρy bw))
            (srcC0 s (blockBounds L T ρx ρy bw)) (r - bw.rowOff) (c - bw.colOff)))
       else none) =
      (if coversCell s L T ρx ρy r c ∧ validAt s (specSample s L T ρx ρy r c)
       then some (specSample s L T ρx ρy r c) else none) := by
    intro s hs
    obtain ⟨hresx, hresy, ⟨kx, hkx⟩, ⟨my, hmy⟩, ⟨nd, hnd2⟩, _⟩ := hsrc s hs
    subst hresx
    subst hresy
    exact (specEntry_eq s L T bw r c (r - bw.rowOff) (c - bw.colOff) kx my nd
      hrx hry hkx hmy hnd2 (by omega) (by omega)).symm
  rw [processWindow_depth_pixel]
  rw [foldSrc_pixel .depth (outNodata .depth) bw (blockBounds L T ρx ρy bw)
    (r - bw.rowOff) (c - bw.colOff) hbh hbww hi srcs hshape
    (fun _ _ => outNodata .depth, false)]
  refine Eq.trans ?_ (congrArg (fun l => specMaxValue l (outNodata FimType.depth))
    (filterMap_congr_mem _ _ srcs hentry))
  exact foldl_updatePixel_max (outNodata .depth)
    (fun s => validAt s (readAt s (srcR0 s (blockBounds L T ρx ρy bw))
      (srcC0 s (blockBounds L T ρx ρy bw)) (r - bw.rowOff) (c - bw.colOff)))
    (fun s => transformAt .depth
      (validAt s (readAt s (srcR0 s (blockBounds L T ρx ρy bw))
        (srcC0 s (blockBounds L T ρx ρy bw)) (r - bw.rowOff) (c - bw.colOff)))
      (readAt s (srcR0 s (blockBounds L T ρx ρy bw))
        (srcC0 s (blockBounds L T ρx ρy bw)) (r - bw.rowOff) (c - bw.colOff)))
    srcs hne

/-- C1 (amended): for every non-empty depth-mode input set sharing one
CRS and one resolution, with positive pixel sizes, non-empty rasters
aligned to a common pixel grid, every input declaring a nodata
sentinel, and no sample equal to the output sentinel −9999, the run
terminates successfully; the output extent is the bounding box of the
union of the input extents (it contains every input's extent and each
side is attained by some input); and every output pixel holds the
maximum valid value among the inputs covering it, or the output nodata
sentinel when no input covers it with a valid value.  (The original
claim, without the sentinel-freedom proviso, is refuted by
`C1_counterexample`: a valid sample equal to −9999 resets the running
maximum.) -/
theorem C1_max_composite (s0 : SrcRaster) (rest : List SrcRaster) (p : String)
    (hcrs : ∀ s ∈ s0 :: rest, s.crs = s0.crs)
    (hres : ∀ s ∈ s0 :: rest, s.resX = s0.resX ∧ s.resY = s0.resY)
    (hrx : 0 < s0.resX) (hry : 0 < s0.resY)
    (hdim : ∀ s ∈ s0 :: rest, 1 ≤ s.width ∧ 1 ≤ s.height)
    (halign : ∀ s ∈ s0 :: rest,
      (∃ k : ℤ, s.left - s0.left = k * s0.resX) ∧
      (∃ m : ℤ, s.top - s0.top = m * s0.resY))
    (hnd : ∀ s ∈ s0 :: rest, ∃ nd, s.nodata = some nd)
    (hval : ∀ s ∈ s0 :: rest, ∀ r c, s.data r c ≠ -9999) :
    (mosaic_rasters (s0 :: rest) p none .depth noFail).result = .ok p ∧
    (∀ s ∈ s0 :: rest,
      (mosaic_rasters (s0 :: rest) p none .depth noFail).bounds.left ≤ s.left ∧
      s.rightEdge ≤ (mosaic_rasters (s0 :: rest) p none .depth noFail).bounds.right ∧
      (mosaic_rasters (s0 :: rest) p none .depth noFail).bounds.bottom ≤ s.bottomEdge ∧
      s.top ≤ (mosaic_rasters (s0 :: rest) p none .depth noFail).bounds.top) ∧
    ((∃ s ∈ s0 :: rest,
        (mosaic_rasters (s0 :: rest) p none .depth noFail).bounds.left = s.left) ∧
     (∃ s ∈ s0 :: rest,
        (mosaic_rasters (s0 :: rest) p none .depth noFail).bounds.right = s.rightEdge) ∧
     (∃ s ∈ s0 :: rest,
        (mosaic_rasters (s0 :: rest) p none .depth noFail).bounds.bottom = s.bottomEdge) ∧
     (∃ s ∈ s0 :: rest,
        (mosaic_rasters (s0 :: rest) p none .depth noFail).bounds.top = s.top)) ∧
    ∀ r c : ℤ, 0 ≤ r →
      r < (mosaic_rasters (s0 :: rest) p none .depth noFail).outH →
      0 ≤ c →
      c < (mosaic_rasters (s0 :: rest) p none .depth noFail).outW →
      (mosaic_rasters (s0 :: rest) p none .depth noFail).content r c =
        specPixelValue (s0 :: rest)
          (mosaic_rasters (s0 :: rest) p none .depth noFail).bounds.left
          (mosaic_rasters (s0 :: rest) p none .depth noFail).bounds.top
          s0.resX s0.resY (outNodata .depth) r c := by
  have hs0 : s0 ∈ s0 :: rest := List.mem_cons_self _ _
  have hbase : mosaic_rasters (s0 :: rest) p none .depth noFail =
      mosaicNoClip (s0 :: rest) p .depth noFail := rfl
  rw [hbase, mosaicNoClip_normal s0 rest p .depth noFail hcrs hres hrx hry
    (hdim s0 hs0).1 (hdim s0 hs0).2 (fun _ => rfl)]
  dsimp only
  refine ⟨rfl, ?_, ?_, ?_⟩
  · intro s hs
    exact union_contains s0 rest s hs
  · exact union_attained s0 rest
  · intro r c hr0 hrH hc0 hcW
    obtain ⟨sL, hsL, hLeq⟩ := (union_attained s0 rest).1
    obtain ⟨kL, hkL⟩ := (halign sL hsL).1
    obtain ⟨sT, hsT, hTeq⟩ := (union_attained s0 rest).2.2.2
    obtain ⟨mT, hmT⟩ := (halign sT hsT).2
    have halignLT : ∀ s ∈ s0 :: rest,
        (∃ kx : ℤ, s.left = unionLeft s0 rest + kx * s0.resX) ∧
        (∃ my : ℤ, s.top = unionTop s0 rest - my * s0.resY) := by
      intro s hs
      obtain ⟨⟨k, hk⟩, ⟨m, hm⟩⟩ := halign s hs
      constructor
      · refine ⟨k - kL, ?_⟩
        rw [hLeq]
        push_cast
        linear_combination hk - hkL
      · refine ⟨mT - m, ?_⟩
        rw [hTeq]
        push_cast
        linear_combination hm - hmT
    obtain ⟨sR, hsR, hReq⟩ := (union_attained s0 rest).2.1
    obtain ⟨⟨kR, hkR⟩, _⟩ := halignLT sR hsR
    have hKWeq : unionRight s0 rest - unionLeft s0 rest =
        ((kR + sR.width : ℤ) : ℚ) * s0.resX := by
      rw [hReq]
      unfold SrcRaster.rightEdge
      rw [hkR, (hres sR hsR).1]
      push_cast
      ring
    have hspanX := span_ge_resX s0 rest hrx (hdim s0 hs0).1
    have hKW1 : 1 ≤ kR + sR.width := by
      by_contra hcon
      push_neg at hcon
      have h0 : ((kR + sR.width : ℤ) : ℚ) ≤ 0 := by
        exact_mod_cast (by omega : (kR + sR.width : ℤ) ≤ 0)
      have h1 : ((kR + sR.width : ℤ) : ℚ) * s0.resX ≤ 0 * s0.resX :=
        mul_le_mul_of_nonneg_right h0 (le_of_lt hrx)
      rw [zero_mul] at h1
      rw [hKWeq] at hspanX
      linarith
    have hKWne : ((kR + sR.width : ℤ) : ℚ) ≠ 0 := by
      exact_mod_cast (by omega : (kR + sR.width : ℤ) ≠ 0)
    have hWval : outWidth s0 rest = kR + sR.width := by
      unfold outWidth
      rw [hKWeq, mul_div_cancel_right₀ _ (ne_of_gt hrx)]
      exact pyInt_intCast_add_half _ (by omega)
    have hgx : (unionRight s0 rest - unionLeft s0 rest) /
        ((outWidth s0 rest : ℤ) : ℚ) = s0.resX := by
      rw [hWval, hKWeq]
      rw [mul_div_cancel_left₀ _ hKWne]
    obtain ⟨sB, hsB, hBeq⟩ := (union_attained s0 rest).2.2.1
    obtain ⟨_, ⟨mB, hmB⟩⟩ := halignLT sB hsB
    have hKHeq : unionTop s0 rest - unionBottom s0 rest =
        ((mB + sB.height : ℤ) : ℚ) * s0.resY := by
      rw [hBeq]
      unfold SrcRaster.bottomEdge
      rw [hmB, (hres sB hsB).2]
      push_cast
      ring
    have hspanY := span_ge_resY s0 rest hry (hdim s0 hs0).2
    have hKH1 : 1 ≤ mB + sB.height := by
      by_contra hcon
      push_neg at hcon
      have h0 : ((mB + sB.height : ℤ) : ℚ) ≤ 0 := by
        exact_mod_cast (by omega : (mB + sB.height : ℤ) ≤ 0)
      have h1 : ((mB + sB.height : ℤ) : ℚ) * s0.resY ≤ 0 * s0.resY :=
        mul_le_mul_of_nonneg_right h0 (le_of_lt hry)
      rw [zero_mul] at h1
      rw [hKHeq] at hspanY
      linarith
    have hKHne : ((mB + sB.height : ℤ) : ℚ) ≠ 0 := by
      exact_mod_cast (by omega : (mB + sB.height : ℤ) ≠ 0)
    have hHval : outHeight s0 rest = mB + sB.height := by
      unfold outHeight
      rw [hKHeq, mul_div_cancel_right₀ _ (ne_of_gt hry)]
      exact pyInt_intCast_add_half _ (by omega)
    have hgy : (unionTop s0 rest - unionBottom s0 rest) /
        ((outHeight s0 rest : ℤ) : ℚ) = s0.resY := by
      rw [hHval, hKHeq]
      rw [mul_div_cancel_left₀ _ hKHne]
    rw [hgx, hgy]
    obtain ⟨bw0, hbw0mem, hbw0cont, hbw0uniq⟩ :=
      blockWindows_unique (outHeight s0 rest) (outWidth s0 rest) r c hr0 hrH hc0 hcW
    obtain ⟨hbh, hbww⟩ := blockWindows_pos (outHeight s0 rest) (outWidth s0 rest)
      bw0 hbw0mem (outHeight_pos s0 rest hry (hdim s0 hs0).2)
      (outWidth_pos s0 rest hrx (hdim s0 hs0).1)
    rw [writeBlocks_at .depth (outNodata .depth) (s0 :: rest) noFail
      (fun _ _ => rfl) (fun _ => rfl) (unionLeft s0 rest) (unionTop s0 rest)
      s0.resX s0.resY r c bw0 hbw0cont
      (blockWindows (outHeight s0 rest) (outWidth s0 rest)) 0
      (fun _ _ => outNodata .depth) hbw0mem hbw0uniq]
    refine block_pixel_spec (unionLeft s0 rest) (unionTop s0 rest) s0.resX s0.resY
      hrx hry bw0 hbh hbww r c hbw0cont (s0 :: rest) ?_
    intro s hs
    exact ⟨(hres s hs).1, (hres s hs).2, (halignLT s hs).1, (halignLT s hs).2,
      hnd s hs, hval s hs⟩

/-- C1 witness: the amended statement at a concrete one-raster input
(unit grid, nodata 0, constant sample 5). -/
theorem C1_witness :
    (mosaic_rasters [testSrc 0 1 (some 0) 5] "out" none .depth noFail).result
      = .ok "out" ∧
    (mosaic_rasters [testSrc 0 1 (some 0) 5] "out" none .depth noFail).content 0 0 =
      specPixelValue [testSrc 0 1 (some 0) 5]
        (mosaic_rasters [testSrc 0 1 (some 0) 5] "out" none .depth noFail).bounds.left
        (mosaic_rasters [testSrc 0 1 (some 0) 5] "out" none .depth noFail).bounds.top
        (testSrc 0 1 (some 0) 5).resX (testSrc 0 1 (some 0) 5).resY
        (outNodata .depth) 0 0 := by
  obtain ⟨h1, _, _, h4⟩ := C1_max_composite (testSrc 0 1 (some 0) 5) [] "out"
    (by decide) (by decide) (by decide) (by decide) (by decide)
    (fun s hs => by
      rw [List.mem_singleton] at hs
      subst hs
      exact ⟨⟨0, by decide⟩, ⟨0, by decide⟩⟩)
    (fun s hs => by
      rw [List.mem_singleton] at hs
      subst hs
      exact ⟨0, rfl⟩)
    (fun s hs => by
      rw [List.mem_singleton] at hs
      subst hs
      intro r c
      exact (by decide : (5 : ℚ) ≠ -9999))
  exact ⟨h1, h4 0 0 (by decide) (by decide) (by decide) (by decide)⟩

/-- C1 counterexample: the original claim fails without the
sentinel-freedom proviso.  Two coincident unit rasters hold the valid
samples −9999 and −10000 (their declared nodata is 0, so both are
valid); the spec's maximum valid value at the pixel is −9999, but the
composited output holds −10000: the first candidate −9999 collides
with the output sentinel, so the second compositing step treats the
buffer as empty and overwrites it with the smaller value. -/
theorem C1_counterexample :
    (mosaic_rasters [testSrc 0 1 (some 0) (-9999), testSrc 0 1 (some 0) (-10000)]
        "out" none .depth noFail).result = .ok "out" ∧
    (mosaic_rasters [testSrc 0 1 (some 0) (-9999), testSrc 0 1 (some 0) (-10000)]
        "out" none .depth noFail).content 0 0 = -10000 ∧
    specPixelValue [testSrc 0 1 (some 0) (-9999), testSrc 0 1 (some 0) (-10000)]
        (mosaic_rasters [testSrc 0 1 (some 0) (-9999), testSrc 0 1 (some 0) (-10000)]
          "out" none .depth noFail).bounds.left
        (mosaic_rasters [testSrc 0 1 (some 0) (-9999), testSrc 0 1 (some 0) (-10000)]
          "out" none .depth noFail).bounds.top
        (testSrc 0 1 (some 0) (-9999)).resX (testSrc 0 1 (some 0) (-9999)).resY
        (outNodata .depth) 0 0 = -9999 ∧
    (-10000 : ℚ) ≠ -9999 := by
  refine ⟨rfl, by decide, by decide, by decide⟩

/-- A nonempty running minimum is a lower bound of its members. -/
theorem foldl_min_le_all {α : Type} {f : α → ℚ} (s0 : α) (rest : List α) :
    ∀ s ∈ s0 :: rest, rest.foldl (fun a x => min a (f x)) (f s0) ≤ f s := by
  intro s hs
  rcases List.mem_cons.mp hs with he | hm
  · subst he
    exact foldl_min_le_init _ _
  · exact foldl_min_le_mem _ _ _ hm

/-- A nonempty running maximum is an upper bound of its members. -/
theorem le_foldl_max_all {α : Type} {f : α → ℚ} (s0 : α) (rest : List α) :
    ∀ s ∈ s0 :: rest, f s ≤ rest.foldl (fun a x => max a (f x)) (f s0) := by
  intro s hs
  rcases List.mem_cons.mp hs with he | hm
  · subst he
    exact le_foldl_max_init _ _
  · exact le_foldl_max_mem _ _ _ hm

/-- A nonempty running minimum is attained by some member. -/
theorem foldl_min_att {α : Type} {f : α → ℚ} (s0 : α) (rest : List α) :
    ∃ u ∈ s0 :: rest, rest.foldl (fun a x => min a (f x)) (f s0) = f u := by
  rcases foldl_min_mem (f := f) rest (f s0) with h | ⟨t, ht, h⟩
  · exact ⟨s0, List.mem_cons_self _ _, h⟩
  · exact ⟨t, List.mem_cons_of_mem _ ht, h⟩

/-- A nonempty running maximum is attained by some member. -/
theorem foldl_max_att {α : Type} {f : α → ℚ} (s0 : α) (rest : List α) :
    ∃ u ∈ s0 :: rest, rest.foldl (fun a x => max a (f x)) (f s0) = f u := by
  rcases foldl_max_mem (f := f) rest (f s0) with h | ⟨t, ht, h⟩
  · exact ⟨s0, List.mem_cons_self _ _, h⟩
  · exact ⟨t, List.mem_cons_of_mem _ ht, h⟩

/-- The running minimum of a nonempty list is invariant under
permutation. -/
theorem foldl_min_eq_of_perm {α : Type} {f : α → ℚ} (s0 s0' : α)
    (rest rest' : List α) (hp : (s0 :: rest).Perm (s0' :: rest')) :
    rest.foldl (fun a x => min a (f x)) (f s0) =
      rest'.foldl (fun a x => min a (f x)) (f s0') := by
  apply le_antisymm
  · obtain ⟨u, hu, hueq⟩ := foldl_min_att (f := f) s0' rest'
    rw [hueq]
    exact foldl_min_le_all s0 rest u (hp.mem_iff.mpr hu)
  · obtain ⟨u, hu, hueq⟩ := foldl_min_att (f := f) s0 rest
    rw [hueq]
    exact foldl_min_le_all s0' rest' u (hp.mem_iff.mp hu)

/-- The running maximum of a nonempty list is invariant under
permutation. -/
theorem foldl_max_eq_of_perm {α : Type} {f : α → ℚ} (s0 s0' : α)
    (rest rest' : List α) (hp : (s0 :: rest).Perm (s0' :: rest')) :
    rest.foldl (fun a x => max a (f x)) (f s0) =
      rest'.foldl (fun a x => max a (f x)) (f s0') := by
  apply le_antisymm
  · obtain ⟨u, hu, hueq⟩ := foldl_max_att (f := f) s0 rest
    rw [hueq]
    exact le_foldl_max_all s0' rest' u (hp.mem_iff.mp hu)
  · obtain ⟨u, hu, hueq⟩ := foldl_max_att (f := f) s0' rest'
    rw [hueq]
    exact le_foldl_max_all s0 rest u (hp.mem_iff.mpr hu)

/-- With the no-failure oracle, block processing is invariant under a
permutation of the sources, provided in depth mode no sample equals the
output sentinel. -/
theorem processWindow_perm (fim : FimType) (l l' : List SrcRaster)
    (hp : l.Perm l')
    (hval : ∀ s ∈ l, fim = .depth → ∀ r c, s.data r c ≠ -9999)
    (gl gt gx gy : ℚ) (bw : BlockWin) :
    processWindow fim (outNodata fim) l noFail 0 gl gt gx gy bw =
      processWindow fim (outNodata fim) l' noFail 0 gl gt gx gy bw := by
  unfold processWindow
  dsimp only
  rw [foldl_zip_noFail fim (outNodata fim) bw _ noFail 0 (fun _ => rfl),
    foldl_zip_noFail fim (outNodata fim) bw _ noFail 0 (fun _ => rfl)]
  simp only [List.length_range, List.take_length]
  rw [hp.foldl_eq'
    (fun x hx y hy z => stepSrc_comm fim bw (blockBounds gl gt gx gy bw) x y z
      (fun he => hval x hx he) (fun he => hval y hy he))
    (fun _ _ => outNodata fim, false)]

/-- With the no-failure oracle, the block loop is invariant under a
permutation of the sources, provided in depth mode no sample equals the
output sentinel. -/
theorem writeBlocks_perm (fim : FimType) (l l' : List SrcRaster)
    (hp : l.Perm l')
    (hval : ∀ s ∈ l, fim = .depth → ∀ r c, s.data r c ≠ -9999)
    (gl gt gx gy : ℚ) :
    ∀ (bws : List BlockWin) (idx : ℕ) (content : ℤ → ℤ → ℚ),
      writeBlocks fim (outNodata fim) l noFail gl gt gx gy bws idx content =
        writeBlocks fim (outNodata fim) l' noFail gl gt gx gy bws idx content
  | [], _, _ => rfl
  | bw :: bws, idx, content => by
    unfold writeBlocks
    simp only [show noFail.writeFail idx = false from rfl, Bool.false_eq_true,
      if_false]
    rw [processWindow_noFail fim (outNodata fim) l noFail idx (fun _ _ => rfl)
      gl gt gx gy bw,
      processWindow_noFail fim (outNodata fim) l' noFail idx (fun _ _ => rfl)
      gl gt gx gy bw,
      processWindow_perm fim l l' hp hval gl gt gx gy bw]
    exact writeBlocks_perm fim l l' hp hval gl gt gx gy bws (idx + 1) _

/-- C2 (amended): compositing is order-independent only away from the
sentinel: for every valid input set (shared CRS and resolution,
positive pixel sizes, non-empty rasters) in which — in depth mode — no
sample equals the output sentinel −9999, permuting the input sequence
leaves the entire outcome (returned path, content, bounds, dimensions)
bit-identical.  (Without the sentinel proviso order independence
fails, see `C2_counterexample`: a valid −9999 resets the running
maximum, so later inputs overwrite instead of composite.) -/
theorem C2_order_independent (s0 : SrcRaster) (rest : List SrcRaster)
    (s0' : SrcRaster) (rest' : List SrcRaster) (p : String) (fim : FimType)
    (hp : (s0 :: rest).Perm (s0' :: rest'))
    (hcrs : ∀ s ∈ s0 :: rest, s.crs = s0.crs)
    (hres : ∀ s ∈ s0 :: rest, s.resX = s0.resX ∧ s.resY = s0.resY)
    (hrx : 0 < s0.resX) (hry : 0 < s0.resY)
    (hdim : ∀ s ∈ s0 :: rest, 1 ≤ s.width ∧ 1 ≤ s.height)
    (hval : fim = .depth → ∀ s ∈ s0 :: rest, ∀ r c, s.data r c ≠ -9999) :
    mosaic_rasters (s0 :: rest) p none fim noFail =
      mosaic_rasters (s0' :: rest') p none fim noFail := by
  have hs0 : s0 ∈ s0 :: rest := List.mem_cons_self _ _
  have hs0' : s0' ∈ s0 :: rest := hp.mem_iff.mpr (List.mem_cons_self _ _)
  have hcrs' : ∀ s ∈ s0' :: rest', s.crs = s0'.crs := fun s hs =>
    (hcrs s (hp.mem_iff.mpr hs)).trans (hcrs s0' hs0').symm
  have hres' : ∀ s ∈ s0' :: rest', s.resX = s0'.resX ∧ s.resY = s0'.resY :=
    fun s hs =>
      ⟨((hres s (hp.mem_iff.mpr hs)).1).trans ((hres s0' hs0').1).symm,
       ((hres s (hp.mem_iff.mpr hs)).2).trans ((hres s0' hs0').2).symm⟩
  have hrx' : 0 < s0'.resX := by
    rw [(hres s0' hs0').1]
    exact hrx
  have hry' : 0 < s0'.resY := by
    rw [(hres s0' hs0').2]
    exact hry
  have hdim' : ∀ s ∈ s0' :: rest', 1 ≤ s.width ∧ 1 ≤ s.height :=
    fun s hs => hdim s (hp.mem_iff.mpr hs)
  have hbase1 : mosaic_rasters (s0 :: rest) p none fim noFail =
      mosaicNoClip (s0 :: rest) p fim noFail := rfl
  have hbase2 : mosaic_rasters (s0' :: rest') p none fim noFail =
      mosaicNoClip (s0' :: rest') p fim noFail := rfl
  rw [hbase1, hbase2,
    mosaicNoClip_normal s0 rest p fim noFail hcrs hres hrx hry
      (hdim s0 hs0).1 (hdim s0 hs0).2 (fun _ => rfl),
    mosaicNoClip_normal s0' rest' p fim noFail hcrs' hres' hrx' hry'
      (hdim' s0' (List.mem_cons_self _ _)).1 (hdim' s0' (List.mem_cons_self _ _)).2
      (fun _ => rfl)]
  have hL : unionLeft s0 rest = unionLeft s0' rest' :=
    foldl_min_eq_of_perm s0 s0' rest rest' hp
  have hB : unionBottom s0 rest = unionBottom s0' rest' :=
    foldl_min_eq_of_perm s0 s0' rest rest' hp
  have hR : unionRight s0 rest = unionRight s0' rest' :=
    foldl_max_eq_of_perm s0 s0' rest rest' hp
  have hT : unionTop s0 rest = unionTop s0' rest' :=
    foldl_max_eq_of_perm s0 s0' rest rest' hp
  have hW : outWidth s0 rest = outWidth s0' rest' := by
    unfold outWidth
    rw [hL, hR, (hres s0' hs0').1]
  have hH : outHeight s0 rest = outHeight s0' rest' := by
    unfold outHeight
    rw [hB, hT, (hres s0' hs0').2]
  rw [← hL, ← hB, ← hR, ← hT, ← hW, ← hH]
  rw [writeBlocks_perm fim (s0 :: rest) (s0' :: rest') hp
    (fun s hs he => hval he s hs) (unionLeft s0 rest) (unionTop s0 rest)
    ((unionRight s0 rest - unionLeft s0 rest) / ((outWidth s0 rest : ℤ) : ℚ))
    ((unionTop s0 rest - unionBottom s0 rest) / ((outHeight s0 rest : ℤ) : ℚ))
    (blockWindows (outHeight s0 rest) (outWidth s0 rest)) 0
    (fun _ _ => outNodata fim)]

/-- C2 witness: the amended statement at a concrete swap of two
coincident unit rasters with samples 5 and 7. -/
theorem C2_witness :
    mosaic_rasters [testSrc 0 1 (some 0) 5, testSrc 0 1 (some 0) 7]
        "out" none .depth noFail =
      mosaic_rasters [testSrc 0 1 (some 0) 7, testSrc 0 1 (some 0) 5]
        "out" none .depth noFail :=
  C2_order_independent (testSrc 0 1 (some 0) 5) [testSrc 0 1 (some 0) 7]
    (testSrc 0 1 (some 0) 7) [testSrc 0 1 (some 0) 5] "out" .depth
    (List.Perm.swap (testSrc 0 1 (some 0) 7) (testSrc 0 1 (some 0) 5) [])
    (by decide) (by decide) (by decide) (by decide) (by decide)
    (fun _ s hs r c => by
      rcases List.mem_cons.mp hs with he | hs2
      · subst he
        exact (by decide : (5 : ℚ) ≠ -9999)
      · rw [List.mem_singleton] at hs2
        subst hs2
        exact (by decide : (7 : ℚ) ≠ -9999))

/-- C2 counterexample: the original claim fails without the
sentinel-freedom proviso.  The same two coincident unit rasters as in
the C1 counterexample — valid samples −9999 and −10000, declared
nodata 0 — give different outputs under the two orders: processed as
[−9999, −10000] the pixel ends at −10000, processed as
[−10000, −9999] it ends at −9999, because the candidate −9999 is
indistinguishable from an empty buffer cell. -/
theorem C2_counterexample :
    [testSrc 0 1 (some 0) (-9999), testSrc 0 1 (some 0) (-10000)].Perm
      [testSrc 0 1 (some 0) (-10000), testSrc 0 1 (some 0) (-9999)] ∧
    (mosaic_rasters [testSrc 0 1 (some 0) (-9999), testSrc 0 1 (some 0) (-10000)]
        "out" none .depth noFail).content 0 0 = -10000 ∧
    (mosaic_rasters [testSrc 0 1 (some 0) (-10000), testSrc 0 1 (some 0) (-9999)]
        "out" none .depth noFail).content 0 0 = -9999 ∧
    (-10000 : ℚ) ≠ -9999 := by
  refine ⟨List.Perm.swap _ _ _, by decide, by decide, by decide⟩

/-- C9 witness: the amended statement at a run whose every read
fails. -/
theorem C9_witness :
    (mosaic_rasters [testSrc 0 1 (some 0) 6] "out" none .depth readFailOracle).result
      = .ok "out" :=
  C9_read_errors_skipped (testSrc 0 1 (some 0) 6) [] "out" .depth none
    readFailOracle (by decide) (by decide) (by norm_num [testSrc])
    (by norm_num [testSrc]) (by norm_num [testSrc]) (by norm_num [testSrc])
    (fun _ => rfl) rfl

end Mosaic
